import Mathlib

/-!
# delongify: batch URL shortener (`delongify.go`)

A shallow embedding of `delongify.go` and a verification of its documented
behaviour.

Modelling conventions.

* A Go `string` is modelled by a Lean `String`, that is a sequence of Unicode
  scalar values: exactly the Go strings that are valid UTF-8 ("well-formed").
  Go's `+` on strings is `++`.
* A Go slice of strings is a `List String`; `make([]string, n)` is
  `List.replicate n ""` and the assignment `xs[i] = v` is `xs.set i v`.
* The effects of the process (standard output, standard error, the file
  system, the requests sent, the exit code) are explicit fields of
  `ProcessResult`.
* The network is an oracle `respond : Nat → PostResult` giving, for the unit
  with a given index, what `http.Post` and the decoding of the body return.
* The goroutines are modelled by a schedule. The list `order` holds the unit
  indices in the order in which their calls to `http.Post` return; the unit
  then runs the rest of its body atomically on the shared state (its writes
  are under the mutex). The list `inFlight` holds the units that have sent
  their request and are still waiting for the response when the process ends.
  A unit in neither list has not reached `http.Post` when the process ends:
  a `log.Fatal` in one unit ends the process whatever the others are doing.
-/

namespace Delongify

/-! ## Constants and plain output -/

/-- Source: `const CREATE_SLUG_URL_PAIR_ENDPOINT`. -/
def CREATE_SLUG_URL_PAIR_ENDPOINT : String := "https://dlgfy.xyz/createSlugURLPair"

/-- Source: `const REDIRECT_ENDPOINT`. -/
def REDIRECT_ENDPOINT : String := "https://dlgfy.xyz"

/-- Source: `makeOutput`. -/
def makeOutput (slug : String) : String :=
  REDIRECT_ENDPOINT ++ "/" ++ slug

/-- Go standard library `strings.Join`: the empty string for no element, the
element itself for one, and otherwise the first element followed, for every
further element, by the separator and the element (the builder loop). The
length-overflow panic of the library is outside the model. -/
def stringsJoin (elems : List String) (sep : String) : String :=
  match elems with
  | [] => ""
  | [e] => e
  | e :: rest => rest.foldl (fun b s => (b ++ sep) ++ s) e

/-- Source: `standardOutput`. -/
def standardOutput (outputSlice : List String) : String :=
  stringsJoin outputSlice "\n"

/-! ## JSON encoding (`encoding/json`) -/

/-- Source: `type URLPair`, with the JSON keys of its field tags. -/
structure URLPair where
  OriginalUrl : String
  NewUrl : String

/-- Go `encoding/json`: `const hex = "0123456789abcdef"`, indexed. -/
def hexDigit (n : Nat) : Char :=
  "0123456789abcdef".data.getD n '0'

/-- Go `encoding/json`: the table `htmlSafeSet`, the ASCII characters written
into a JSON string as they are when HTML escaping is on (the default of
`Marshal` and `MarshalIndent`): from the space to `0x7f` except the double
quote, the backslash and `<`, `>`, `&`. -/
def htmlSafeSet (c : Char) : Bool :=
  decide (32 ≤ c.toNat) && decide (c.toNat < 128) &&
    !(c == '"' || c == '\\' || c == '<' || c == '>' || c == '&')

/-- Go `encoding/json`: what `appendString` (with `escapeHTML` set) writes for
one character of a valid UTF-8 string, as of Go 1.22 (earlier releases wrote
the backspace and the form feed as `\u0008` and `\u000c`). Bytes that are not
valid UTF-8, which the library replaces by U+FFFD, are outside the type
`Char`. -/
def appendStringChar (c : Char) : List Char :=
  if c.toNat < 128 then
    if htmlSafeSet c then [c]
    else if c = '\\' ∨ c = '"' then ['\\', c]
    else if c = Char.ofNat 8 then ['\\', 'b']
    else if c = Char.ofNat 12 then ['\\', 'f']
    else if c = '\n' then ['\\', 'n']
    else if c = '\r' then ['\\', 'r']
    else if c = '\t' then ['\\', 't']
    else ['\\', 'u', '0', '0', hexDigit (c.toNat / 16), hexDigit (c.toNat % 16)]
  else if c = Char.ofNat 0x2028 ∨ c = Char.ofNat 0x2029 then
    ['\\', 'u', '2', '0', '2', hexDigit (c.toNat % 16)]
  else [c]

/-- Go `encoding/json`: `appendString(dst, src, true)`, a quoted JSON string. -/
def appendString (dst : List Char) (src : String) : List Char :=
  dst ++ '"' :: src.data.flatMap appendStringChar ++ ['"']

/-- Go `encoding/json`: the struct encoder on a `URLPair`: the fields in
declaration order, each as its quoted key, a colon and the encoded string. -/
def encodeURLPair (e : List Char) (p : URLPair) : List Char :=
  let e1 := e ++ ['{'] ++ "\"originalUrl\":".data
  let e2 := appendString e1 p.OriginalUrl
  let e3 := e2 ++ [','] ++ "\"newUrl\":".data
  let e4 := appendString e3 p.NewUrl
  e4 ++ ['}']

/-- Go `encoding/json`: the loop of the array encoder, `i` being the loop
index: a comma before every element but the first. -/
def encodeElems : List Char → Nat → List URLPair → List Char
  | e, _, [] => e
  | e, i, p :: ps =>
    encodeElems (encodeURLPair (if i > 0 then e ++ [','] else e) p) (i + 1) ps

/-- Go `encoding/json`: `Marshal` on a non-nil `[]URLPair`. It cannot fail:
every value is made of strings. -/
def Marshal (v : List URLPair) : List Char :=
  encodeElems ['['] 0 v ++ [']']

/-! ## The JSON scanner and `Indent` (`encoding/json`) -/

/-- Go `encoding/json`: the scan codes returned by the scanner. -/
inductive ScanCode where
  | scanContinue | scanBeginLiteral | scanBeginObject | scanObjectKey
  | scanObjectValue | scanEndObject | scanBeginArray | scanArrayValue
  | scanEndArray | scanSkipSpace | scanEnd | scanError
  deriving DecidableEq

/-- Go `encoding/json`: the entries of the scanner's `parseState` stack. -/
inductive ParseState where
  | parseObjectKey | parseObjectValue | parseArrayValue
  deriving DecidableEq

/-- Go `encoding/json`: the scanner's transition functions (the field `step`). -/
inductive Step where
  | stateBeginValueOrEmpty | stateBeginValue | stateBeginStringOrEmpty
  | stateBeginString | stateEndValue | stateEndTop
  | stateInString | stateInStringEsc | stateInStringEscU | stateInStringEscU1
  | stateInStringEscU12 | stateInStringEscU123
  | stateNeg | state1 | state0 | stateDot | stateDot0 | stateE | stateESign | stateE0
  | stateT | stateTr | stateTru | stateF | stateFa | stateFal | stateFals
  | stateN | stateNu | stateNul | stateError
  deriving DecidableEq

/-- Go `encoding/json`: `type scanner`. The stack `parseState` has its top at
the head; `err` holds the context of the recorded syntax error. -/
structure Scanner where
  step : Step
  endTop : Bool
  parseState : List ParseState
  err : Option String
  deriving DecidableEq

/-- Go `encoding/json`: `maxNestingDepth`. -/
def maxNestingDepth : Nat := 10000

/-- Go `encoding/json`: `scanner.reset`. -/
def Scanner.reset : Scanner :=
  { step := .stateBeginValue, endTop := false, parseState := [], err := none }

/-- Go `encoding/json`: `scanner.error`. -/
def Scanner.error (s : Scanner) (context : String) : Scanner × ScanCode :=
  ({ s with step := .stateError, err := some context }, .scanError)

/-- Go `encoding/json`: `isSpace`. -/
def isSpace (c : Char) : Bool :=
  c == ' ' || c == '\t' || c == '\r' || c == '\n'

/-- Go `encoding/json`: `scanner.pushParseState`. -/
def Scanner.pushParseState (s : Scanner) (newParseState : ParseState)
    (successState : ScanCode) : Scanner × ScanCode :=
  let s1 := { s with parseState := newParseState :: s.parseState }
  if s1.parseState.length ≤ maxNestingDepth then (s1, successState)
  else s1.error "exceeded max depth"

/-- Go `encoding/json`: `scanner.popParseState`. -/
def Scanner.popParseState (s : Scanner) : Scanner :=
  let rest := s.parseState.tail
  if rest.length = 0 then { s with parseState := rest, step := .stateEndTop, endTop := true }
  else { s with parseState := rest, step := .stateEndValue }

/-- Go `encoding/json`: `stateEndTop`. -/
def stateEndTop (s : Scanner) (c : Char) : Scanner × ScanCode :=
  if !isSpace c then ((s.error "after top-level value").1, .scanEnd)
  else (s, .scanEnd)

/-- Go `encoding/json`: `stateEndValue`. -/
def stateEndValue (s : Scanner) (c : Char) : Scanner × ScanCode :=
  match s.parseState with
  | [] => stateEndTop { s with step := .stateEndTop, endTop := true } c
  | ps :: rest =>
    if isSpace c then ({ s with step := .stateEndValue }, .scanSkipSpace)
    else
      match ps with
      | .parseObjectKey =>
        if c = ':' then
          ({ s with parseState := .parseObjectValue :: rest, step := .stateBeginValue },
            .scanObjectKey)
        else s.error "after object key"
      | .parseObjectValue =>
        if c = ',' then
          ({ s with parseState := .parseObjectKey :: rest, step := .stateBeginString },
            .scanObjectValue)
        else if c = '}' then (s.popParseState, .scanEndObject)
        else s.error "after object key:value pair"
      | .parseArrayValue =>
        if c = ',' then ({ s with step := .stateBeginValue }, .scanArrayValue)
        else if c = ']' then (s.popParseState, .scanEndArray)
        else s.error "after array element"

/-- Go `encoding/json`: `stateBeginValue`. -/
def stateBeginValue (s : Scanner) (c : Char) : Scanner × ScanCode :=
  if isSpace c then (s, .scanSkipSpace)
  else if c = '{' then
    Scanner.pushParseState { s with step := .stateBeginStringOrEmpty } .parseObjectKey
      .scanBeginObject
  else if c = '[' then
    Scanner.pushParseState { s with step := .stateBeginValueOrEmpty } .parseArrayValue
      .scanBeginArray
  else if c = '"' then ({ s with step := .stateInString }, .scanBeginLiteral)
  else if c = '-' then ({ s with step := .stateNeg }, .scanBeginLiteral)
  else if c = '0' then ({ s with step := .state0 }, .scanBeginLiteral)
  else if c = 't' then ({ s with step := .stateT }, .scanBeginLiteral)
  else if c = 'f' then ({ s with step := .stateF }, .scanBeginLiteral)
  else if c = 'n' then ({ s with step := .stateN }, .scanBeginLiteral)
  else if '1' ≤ c ∧ c ≤ '9' then ({ s with step := .state1 }, .scanBeginLiteral)
  else s.error "looking for beginning of value"

/-- Go `encoding/json`: `stateBeginValueOrEmpty`. -/
def stateBeginValueOrEmpty (s : Scanner) (c : Char) : Scanner × ScanCode :=
  if isSpace c then (s, .scanSkipSpace)
  else if c = ']' then stateEndValue s c
  else stateBeginValue s c

/-- Go `encoding/json`: `stateBeginString`. -/
def stateBeginString (s : Scanner) (c : Char) : Scanner × ScanCode :=
  if isSpace c then (s, .scanSkipSpace)
  else if c = '"' then ({ s with step := .stateInString }, .scanBeginLiteral)
  else s.error "looking for beginning of object key string"

/-- Go `encoding/json`: `stateBeginStringOrEmpty`. -/
def stateBeginStringOrEmpty (s : Scanner) (c : Char) : Scanner × ScanCode :=
  if isSpace c then (s, .scanSkipSpace)
  else if c = '}' then
    stateEndValue { s with parseState := .parseObjectValue :: s.parseState.tail } c
  else stateBeginString s c

/-- Go `encoding/json`: `stateInString`. -/
def stateInString (s : Scanner) (c : Char) : Scanner × ScanCode :=
  if c = '"' then ({ s with step := .stateEndValue }, .scanContinue)
  else if c = '\\' then ({ s with step := .stateInStringEsc }, .scanContinue)
  else if c.toNat < 32 then s.error "in string literal"
  else (s, .scanContinue)

/-- Go `encoding/json`: `stateInStringEsc`. -/
def stateInStringEsc (s : Scanner) (c : Char) : Scanner × ScanCode :=
  if c = 'b' ∨ c = 'f' ∨ c = 'n' ∨ c = 'r' ∨ c = 't' ∨ c = '\\' ∨ c = '/' ∨ c = '"' then
    ({ s with step := .stateInString }, .scanContinue)
  else if c = 'u' then ({ s with step := .stateInStringEscU }, .scanContinue)
  else s.error "in string escape code"

/-- The test of the four `stateInStringEscU...` functions on their byte. -/
def isHexDigit (c : Char) : Bool :=
  decide ('0' ≤ c ∧ c ≤ '9') || decide ('a' ≤ c ∧ c ≤ 'f') || decide ('A' ≤ c ∧ c ≤ 'F')

/-- Go `encoding/json`: `stateInStringEscU`, `stateInStringEscU1`,
`stateInStringEscU12` and `stateInStringEscU123`, which differ in the state
they go to. -/
def stateInStringEscHex (next : Step) (s : Scanner) (c : Char) : Scanner × ScanCode :=
  if isHexDigit c then ({ s with step := next }, .scanContinue)
  else s.error "in \\u hexadecimal character escape"

/-- The digits `0` to `9`. -/
def isDigit (c : Char) : Bool := decide ('0' ≤ c ∧ c ≤ '9')

/-- Go `encoding/json`: `state0`. -/
def state0 (s : Scanner) (c : Char) : Scanner × ScanCode :=
  if c = '.' then ({ s with step := .stateDot }, .scanContinue)
  else if c = 'e' ∨ c = 'E' then ({ s with step := .stateE }, .scanContinue)
  else stateEndValue s c

/-- Go `encoding/json`: `state1`. -/
def state1 (s : Scanner) (c : Char) : Scanner × ScanCode :=
  if isDigit c then ({ s with step := .state1 }, .scanContinue)
  else state0 s c

/-- Go `encoding/json`: `stateNeg`. -/
def stateNeg (s : Scanner) (c : Char) : Scanner × ScanCode :=
  if c = '0' then ({ s with step := .state0 }, .scanContinue)
  else if '1' ≤ c ∧ c ≤ '9' then ({ s with step := .state1 }, .scanContinue)
  else s.error "in numeric literal"

/-- Go `encoding/json`: `stateDot`. -/
def stateDot (s : Scanner) (c : Char) : Scanner × ScanCode :=
  if isDigit c then ({ s with step := .stateDot0 }, .scanContinue)
  else s.error "after decimal point in numeric literal"

/-- Go `encoding/json`: `stateDot0`. -/
def stateDot0 (s : Scanner) (c : Char) : Scanner × ScanCode :=
  if isDigit c then (s, .scanContinue)
  else if c = 'e' ∨ c = 'E' then ({ s with step := .stateE }, .scanContinue)
  else stateEndValue s c

/-- Go `encoding/json`: `stateESign`. -/
def stateESign (s : Scanner) (c : Char) : Scanner × ScanCode :=
  if isDigit c then ({ s with step := .stateE0 }, .scanContinue)
  else s.error "in exponent of numeric literal"

/-- Go `encoding/json`: `stateE`. -/
def stateE (s : Scanner) (c : Char) : Scanner × ScanCode :=
  if c = '+' ∨ c = '-' then ({ s with step := .stateESign }, .scanContinue)
  else stateESign s c

/-- Go `encoding/json`: `stateE0`. -/
def stateE0 (s : Scanner) (c : Char) : Scanner × ScanCode :=
  if isDigit c then (s, .scanContinue)
  else stateEndValue s c

/-- Go `encoding/json`: the states inside the literals `true`, `false` and
`null` (`stateT`, `stateTr`, ...): the one expected letter leads to `next`. -/
def stateLetter (expected : Char) (next : Step) (context : String) (s : Scanner)
    (c : Char) : Scanner × ScanCode :=
  if c = expected then ({ s with step := next }, .scanContinue)
  else s.error context

/-- Go `encoding/json`: the call `s.step(s, c)`. -/
def Scanner.doStep (s : Scanner) (c : Char) : Scanner × ScanCode :=
  match s.step with
  | .stateBeginValueOrEmpty => stateBeginValueOrEmpty s c
  | .stateBeginValue => stateBeginValue s c
  | .stateBeginStringOrEmpty => stateBeginStringOrEmpty s c
  | .stateBeginString => stateBeginString s c
  | .stateEndValue => stateEndValue s c
  | .stateEndTop => stateEndTop s c
  | .stateInString => stateInString s c
  | .stateInStringEsc => stateInStringEsc s c
  | .stateInStringEscU => stateInStringEscHex .stateInStringEscU1 s c
  | .stateInStringEscU1 => stateInStringEscHex .stateInStringEscU12 s c
  | .stateInStringEscU12 => stateInStringEscHex .stateInStringEscU123 s c
  | .stateInStringEscU123 => stateInStringEscHex .stateInString s c
  | .stateNeg => stateNeg s c
  | .state1 => state1 s c
  | .state0 => state0 s c
  | .stateDot => stateDot s c
  | .stateDot0 => stateDot0 s c
  | .stateE => stateE s c
  | .stateESign => stateESign s c
  | .stateE0 => stateE0 s c
  | .stateT => stateLetter 'r' .stateTr "in literal true (expecting 'r')" s c
  | .stateTr => stateLetter 'u' .stateTru "in literal true (expecting 'u')" s c
  | .stateTru => stateLetter 'e' .stateEndValue "in literal true (expecting 'e')" s c
  | .stateF => stateLetter 'a' .stateFa "in literal false (expecting 'a')" s c
  | .stateFa => stateLetter 'l' .stateFal "in literal false (expecting 'l')" s c
  | .stateFal => stateLetter 's' .stateFals "in literal false (expecting 's')" s c
  | .stateFals => stateLetter 'e' .stateEndValue "in literal false (expecting 'e')" s c
  | .stateN => stateLetter 'u' .stateNu "in literal null (expecting 'u')" s c
  | .stateNu => stateLetter 'l' .stateNul "in literal null (expecting 'l')" s c
  | .stateNul => stateLetter 'l' .stateEndValue "in literal null (expecting 'l')" s c
  | .stateError => (s, .scanError)

/-- Go `encoding/json`: `scanner.eof`. -/
def Scanner.eof (s : Scanner) : Scanner × ScanCode :=
  if s.err.isSome then (s, .scanError)
  else if s.endTop then (s, .scanEnd)
  else
    let s1 := (s.doStep ' ').1
    if s1.endTop then (s1, .scanEnd)
    else if s1.err.isNone then
      ({ s1 with err := some "unexpected end of JSON input" }, .scanError)
    else (s1, .scanError)

/-- Go `encoding/json`: `appendNewline`. -/
def appendNewline (dst : List Char) (pfx indent : List Char) (depth : Int) : List Char :=
  dst ++ ['\n'] ++ pfx ++ (List.replicate depth.toNat indent).flatten

/-- The variables of the loop of `appendIndent`. -/
structure IndentState where
  scan : Scanner
  needIndent : Bool
  depth : Int
  dst : List Char
  deriving DecidableEq

/-- Go `encoding/json`: the body of the loop of `appendIndent` once the
scanner has stepped to `scan` with code `v` on the byte `c`, for a code other
than `scanSkipSpace` and `scanError`. -/
def indentEmit (pfx indent : List Char) (st : IndentState) (scan : Scanner)
    (v : ScanCode) (c : Char) : IndentState :=
  let st1 : IndentState :=
    if st.needIndent ∧ v ≠ .scanEndObject ∧ v ≠ .scanEndArray then
      { scan := scan, needIndent := false, depth := st.depth + 1,
        dst := appendNewline st.dst pfx indent (st.depth + 1) }
    else { st with scan := scan }
  if v = .scanContinue then { st1 with dst := st1.dst ++ [c] }
  else if c = '{' ∨ c = '[' then { st1 with needIndent := true, dst := st1.dst ++ [c] }
  else if c = ',' then
    { st1 with dst := appendNewline (st1.dst ++ [c]) pfx indent st1.depth }
  else if c = ':' then { st1 with dst := st1.dst ++ [c, ' '] }
  else if c = '}' ∨ c = ']' then
    if st1.needIndent then { st1 with needIndent := false, dst := st1.dst ++ [c] }
    else
      { st1 with depth := st1.depth - 1,
                 dst := appendNewline st1.dst pfx indent (st1.depth - 1) ++ [c] }
  else { st1 with dst := st1.dst ++ [c] }

/-- Go `encoding/json`: the loop `for _, c := range src` of `appendIndent`,
left at the first scan error. -/
def appendIndentLoop (pfx indent : List Char) : List Char → IndentState → IndentState
  | [], st => st
  | c :: cs, st =>
    let r := st.scan.doStep c
    if r.2 = .scanSkipSpace then appendIndentLoop pfx indent cs { st with scan := r.1 }
    else if r.2 = .scanError then { st with scan := r.1 }
    else appendIndentLoop pfx indent cs (indentEmit pfx indent st r.1 r.2 c)

/-- Go `encoding/json`: `appendIndent` on an empty destination; the error is
the scanner's. -/
def appendIndent (src : List Char) (pfx indent : List Char) : Except String (List Char) :=
  let st := appendIndentLoop pfx indent src
    { scan := Scanner.reset, needIndent := false, depth := 0, dst := [] }
  let r := st.scan.eof
  if r.2 = .scanError then .error (r.1.err.getD "") else .ok st.dst

/-- Go `encoding/json`: `MarshalIndent` on a `[]URLPair`: `Marshal`, then
`appendIndent`. -/
def MarshalIndent (v : List URLPair) (pfx indent : String) : Except String String :=
  match appendIndent (Marshal v) pfx.data indent.data with
  | .error e => .error e
  | .ok b => .ok (String.mk b)

/-! ## JSON output -/

/-- How a Go function that returns `(T, error)` ends: with its value and a
`nil` error (`Except.ok`), with a non-nil error, or with a run-time panic. -/
inductive Failure where
  | error (msg : String)
  | panic (msg : String)
  deriving DecidableEq

/-- Source: the `for` loop of `jsonOutput`, `n` iterations from the index `i`
on: `shortenedURLs[i]` out of range is a run-time panic. -/
def jsonOutputLoop (originalURLs shortenedURLs : List String) :
    Nat → Nat → List URLPair → Except Failure (List URLPair)
  | 0, _, urlPairs => .ok urlPairs
  | n + 1, i, urlPairs =>
    match originalURLs[i]?, shortenedURLs[i]? with
    | some o, some s =>
      jsonOutputLoop originalURLs shortenedURLs n (i + 1)
        (urlPairs ++ [{ OriginalUrl := o, NewUrl := s }])
    | _, _ => .error (.panic "index out of range")

/-- Source: `jsonOutput`. -/
def jsonOutput (originalURLs shortenedURLs : List String) : Except Failure String :=
  match jsonOutputLoop originalURLs shortenedURLs originalURLs.length 0 [] with
  | .error f => .error f
  | .ok urlPairs =>
    match MarshalIndent urlPairs "" "  " with
    | .error e => .error (.error e)
    | .ok jsonData => .ok jsonData

/-! ## The command line context, the file system and the process result -/

/-- The part of `*cli.Context` the program reads: `ctx.Args().Slice()`,
`ctx.Bool("json")` and `ctx.String("output")`. -/
structure Context where
  args : List String
  json : Bool
  output : String

/-- A file system: the files with their contents, and the paths at which
`os.WriteFile` fails (missing directory, no permission, ...). -/
structure FileSystem where
  files : List (String × String)
  unwritable : List String

/-- Go standard library `os.WriteFile(path, data, 0644)`: fails and leaves the
files unchanged at an unwritable path, otherwise creates or overwrites the
file. The first component is the returned error (`none` for `nil`). -/
def writeFile (fs : FileSystem) (path : String) (data : String) :
    Option String × FileSystem :=
  if path ∈ fs.unwritable then
    (some ("open " ++ path ++ ": cannot write"), fs)
  else
    (none, { fs with files := (path, data) :: fs.files.filter (fun f => f.1 != path) })

/-- Source: `dumpStringToFile`. -/
def dumpStringToFile (fs : FileSystem) (str : String) (path : String) :
    Option String × FileSystem :=
  writeFile fs path str

/-- What a run of the process leaves behind: the exit code, the text written
to standard output, the lines written to standard error, the file system, the
requests sent with `http.Post` (endpoint, content type, body), listed by unit
index, whether the help was shown, and the two slices `output` was called with
(`none` when it was not called). -/
structure ProcessResult where
  exitCode : Nat
  stdout : String
  stderr : List String
  fs : FileSystem
  requests : List (String × String × String)
  helpShown : Bool
  formatterInput : Option (List String × List String)

/-- What `output` returns and leaves behind: the returned error (`none` for
`nil`), what it wrote to standard output, and the file system. -/
structure OutputResult where
  err : Option Failure
  stdout : String
  fs : FileSystem

/-- Source: `output`. The value returned by `dumpStringToFile` is dropped, as
in the source; `fmt.Fprintln` appends a newline. -/
def output (ctx : Context) (fs : FileSystem) (originalURLs shortenedURLs : List String) :
    OutputResult :=
  let formatted : Except Failure String :=
    if ctx.json then jsonOutput originalURLs shortenedURLs
    else .ok (standardOutput shortenedURLs)
  match formatted with
  | .error f => { err := some f, stdout := "", fs := fs }
  | .ok out =>
    if ctx.output ≠ "" then
      { err := none, stdout := "", fs := (dumpStringToFile fs out ctx.output).2 }
    else
      { err := none, stdout := out ++ "\n", fs := fs }

/-! ## The per-URL unit of work -/

/-- What `http.Post` gives a unit: a transport error, or a response with its
status code and the result of decoding its body into
`CreateSlugURLPairResponse` (`none` when `Decode` returns an error, otherwise
the field `SlugURLPair.Slug`). The body is decoded only on status 200. -/
inductive PostResult where
  | transportError
  | response (statusCode : Nat) (decoded : Option String)
  deriving DecidableEq

/-- The state shared by the units: the slice `shortenedURLs` and the lines
written to standard error so far. -/
structure Batch where
  shortenedURLs : List String
  stderr : List String

/-- The line `log.Fatal(err)` writes before `os.Exit(1)`; the text of the
library's error is not modelled. -/
def fatalLine : String := "log.Fatal"

/-- Source: the body of the goroutine in `bulkConvert`, run on the shared
state once its request has returned `r`. `Except.error` is `log.Fatal`: the
process ends with the standard error lines carried by the error. -/
def goroutine (url : String) (index : Nat) (r : PostResult) (st : Batch) :
    Except (List String) Batch :=
  match r with
  | .transportError => .error (st.stderr ++ [fatalLine])
  | .response statusCode decoded =>
    if statusCode = 200 then
      match decoded with
      | none => .error (st.stderr ++ [fatalLine])
      | some slug =>
        .ok { shortenedURLs := st.shortenedURLs.set index (makeOutput slug),
              stderr := st.stderr ++ ["✓  " ++ url] }
    else if statusCode = 429 then
      .ok { shortenedURLs := st.shortenedURLs.set index "",
            stderr := st.stderr ++ ["Rate limit exceeded. Skipping url: " ++ url] }
    else
      .ok st

/-- The units finishing one after the other in the order `order`, up to the
barrier `wg.Wait()` or the first `log.Fatal`. -/
def awaitAll (urls : List String) (respond : Nat → PostResult) :
    List Nat → Batch → Except (List String) Batch
  | [], st => .ok st
  | i :: rest, st =>
    match goroutine (urls.getD i "") i (respond i) st with
    | .error e => .error e
    | .ok st1 => awaitAll urls respond rest st1

/-- Source: the first part of the goroutine in `bulkConvert`, up to the call
`http.Post(CREATE_SLUG_URL_PAIR_ENDPOINT, "application/json", body)`: the
endpoint, the content type and the body `json.Marshal(URL{Value: url})`, an
object with the one key `url`. (`json.Marshal` cannot fail on a string.) -/
def request (url : String) : String × String × String :=
  (CREATE_SLUG_URL_PAIR_ENDPOINT, "application/json",
    String.mk (appendString ("\x7b\"url\":".data) url ++ ['}']))

/-- The units whose call to `http.Post` has returned by the end of the run:
the units of `order` whose body ran, up to the barrier or up to and including
the unit that ends the process with `log.Fatal`. -/
def returnedUnits (urls : List String) (respond : Nat → PostResult) :
    List Nat → Batch → List Nat
  | [], _ => []
  | i :: rest, st =>
    match goroutine (urls.getD i "") i (respond i) st with
    | .error _ => [i]
    | .ok st1 => i :: returnedUnits urls respond rest st1

/-- Source: the loop `for i, url := range urls` of `bulkConvert` seen from the
network, `i` being the index of the first URL of the list: the unit of each
URL sends the request of that URL once it has reached `http.Post`. -/
def dispatch (posted : Nat → Bool) : Nat → List String → List (String × String × String)
  | _, [] => []
  | i, url :: rest =>
    if posted i then request url :: dispatch posted (i + 1) rest
    else dispatch posted (i + 1) rest

/-- Source: `bulkConvert`. The `for` loop launches one unit per URL, the calls
to `http.Post` return in the order `order`, the units of `inFlight` are still
waiting when the process ends, and after the barrier the results go to
`output`. A unit has sent its request when its call has returned or is in
flight. `log.Fatal` ends the process with code 1, a panic with code 2,
`os.Exit(0)` with code 0. -/
def bulkConvert (ctx : Context) (respond : Nat → PostResult) (order inFlight : List Nat)
    (fs : FileSystem) : ProcessResult :=
  let urls := ctx.args
  let shortenedURLs := List.replicate urls.length ""
  let returned :=
    returnedUnits urls respond order { shortenedURLs := shortenedURLs, stderr := [] }
  let requests := dispatch (fun i => decide (i ∈ returned) || decide (i ∈ inFlight)) 0 urls
  match awaitAll urls respond order { shortenedURLs := shortenedURLs, stderr := [] } with
  | .error stderr =>
    { exitCode := 1, stdout := "", stderr := stderr, fs := fs, requests := requests,
      helpShown := false, formatterInput := none }
  | .ok st =>
    let r := output ctx fs urls st.shortenedURLs
    match r.err with
    | some (.error _) =>
      { exitCode := 1, stdout := r.stdout, stderr := st.stderr ++ [fatalLine], fs := r.fs,
        requests := requests, helpShown := false,
        formatterInput := some (urls, st.shortenedURLs) }
    | some (.panic _) =>
      { exitCode := 2, stdout := r.stdout, stderr := st.stderr ++ ["panic"], fs := r.fs,
        requests := requests, helpShown := false,
        formatterInput := some (urls, st.shortenedURLs) }
    | none =>
      { exitCode := 0, stdout := r.stdout,
        stderr := st.stderr ++ ["Done!"] ++
          (if ctx.output ≠ "" then ["Saved output to: " ++ ctx.output] else []),
        fs := r.fs, requests := requests, helpShown := false,
        formatterInput := some (urls, st.shortenedURLs) }

/-- Library `cli.ShowAppHelpAndExit(ctx, exitCode)`: the help is shown (its
text, which the library generates, is recorded by the flag `helpShown`) and
the process exits with the code. -/
def showAppHelpAndExit (fs : FileSystem) (exitCode : Nat) : ProcessResult :=
  { exitCode := exitCode, stdout := "", stderr := [], fs := fs, requests := [],
    helpShown := true, formatterInput := none }

/-- Source: `defaultAction`. -/
def defaultAction (ctx : Context) (respond : Nat → PostResult) (order inFlight : List Nat)
    (fs : FileSystem) : ProcessResult :=
  if ctx.args.length > 0 then bulkConvert ctx respond order inFlight fs
  else showAppHelpAndExit fs 0

/-! ## Notions of the specification -/

/-- A unit whose response ends the process: a transport error, or a status 200
whose body does not decode. -/
def PostResult.isFatal : PostResult → Bool
  | .transportError => true
  | .response statusCode decoded => statusCode == 200 && decoded.isNone

/-- The entry of the result sequence that belongs to a unit with the response
`r`: the shortened URL on a decoded status 200, the empty string otherwise. -/
def unitEntry : PostResult → String
  | .response statusCode (some slug) => if statusCode = 200 then makeOutput slug else ""
  | _ => ""

/-- Some unit of a batch of `n` units ends the process. -/
def anyFatal (respond : Nat → PostResult) (n : Nat) : Bool :=
  (List.range n).any (fun i => (respond i).isFatal)

/-- The result sequence of a batch of `n` units in which every entry is the
outcome of the unit with its index. -/
def expectedResults (respond : Nat → PostResult) (n : Nat) : List String :=
  (List.range n).map (fun i => unitEntry (respond i))

/-- The invariant of the barrier: the slice has one entry per URL, the entry
of a finished unit is its outcome and every other entry is still empty. -/
def Settled (respond : Nat → PostResult) (n : Nat) (l : List String)
    (finished : Nat → Prop) : Prop :=
  l.length = n ∧ ∀ j, j < n →
    (finished j → l[j]? = some (unitEntry (respond j))) ∧ (¬ finished j → l[j]? = some "")

/-- Splitting a text at every newline, as Go's `strings.Split(s, "\n")` does:
one more part than there are newlines. -/
def splitOnNewline : List Char → List (List Char)
  | [] => [[]]
  | c :: cs =>
    if c = '\n' then [] :: splitOnNewline cs
    else
      match splitOnNewline cs with
      | [] => [[c]]
      | l :: ls => (c :: l) :: ls

/-- The lines of a text. -/
def lines (s : String) : List String :=
  (splitOnNewline s.data).map String.mk

/-- A character that RFC 8259 requires to be escaped inside a JSON string: a
control character, the double quote or the backslash. -/
def mustEscape (c : Char) : Bool :=
  decide (c.toNat < 32) || c == '"' || c == '\\'

/-- A character that Go's encoder does not write as it is: those of
`mustEscape`, and `<`, `>`, `&`, U+2028 and U+2029. -/
def goEscapes (c : Char) : Bool :=
  mustEscape c || c == '<' || c == '>' || c == '&' ||
    c == Char.ofNat 0x2028 || c == Char.ofNat 0x2029

/-- The indented text of one object whose two strings are written as they
are. -/
def layoutObject (orig short : String) : String :=
  "  \x7b\n    \"originalUrl\": \"" ++ orig ++ "\",\n    \"newUrl\": \"" ++ short
    ++ "\"\n  \x7d"

/-- The pretty-printed array the specification describes: `[` and `]` on lines
of their own, the objects indented by two spaces and separated by a comma and a
newline, no trailing newline, and `[]` for no object. -/
def layout (originalURLs shortenedURLs : List String) : String :=
  match List.zipWith layoutObject originalURLs shortenedURLs with
  | [] => "[]"
  | objs => "[\n" ++ ",\n".intercalate objs ++ "\n]"

/-! ## Closed forms of the encoder's text -/

/-- The text of a quoted JSON string as the encoder writes it. -/
def quoted (s : String) : List Char :=
  '"' :: s.data.flatMap appendStringChar ++ ['"']

/-- The compact text of one `URLPair`. -/
def compactObject (p : URLPair) : List Char :=
  '{' :: '"' :: "originalUrl".data ++ '"' :: ':' :: quoted p.OriginalUrl
    ++ ',' :: '"' :: "newUrl".data ++ '"' :: ':' :: quoted p.NewUrl ++ ['}']

/-- The indented text of one `URLPair` at depth 1, from its opening brace on. -/
def indentedObject (p : URLPair) : List Char :=
  "\x7b\n    \"originalUrl\": ".data ++ quoted p.OriginalUrl
    ++ ",\n    \"newUrl\": ".data ++ quoted p.NewUrl ++ "\n  \x7d".data

/-- The indented text of a `[]URLPair`: what `MarshalIndent` with an empty
prefix and an indent of two spaces yields. -/
def indentedArray : List URLPair → List Char
  | [] => ['[', ']']
  | p :: ps =>
    ['[', '\n', ' ', ' '] ++ indentedObject p
      ++ ps.flatMap (fun q => ',' :: '\n' :: ' ' :: ' ' :: indentedObject q) ++ ['\n', ']']

/-! ## A reference JSON reader (RFC 8259)

The specification speaks of "parsing the JSON output". The reader below is
that parser: a lexer and a stack parser, each a single pass over its input.
It is independent of the encoder above. -/

/-- A JSON value; a number keeps its text. -/
inductive JSON where
  | null
  | bool (b : Bool)
  | num (text : String)
  | str (s : String)
  | arr (elems : List JSON)
  | obj (members : List (String × JSON))

/-- The tokens of a JSON text. -/
inductive Token where
  | lbracket | rbracket | lbrace | rbrace | colon | comma
  | str (s : List Char)
  | word (w : List Char)
  deriving DecidableEq

/-- The states of the lexer: between tokens; inside a string (with the
characters decoded so far); after a backslash; inside the four hexadecimal
digits of a `\u` escape (`k` digits read, of value `v`); after a high
surrogate escape, waiting for the backslash, the `u` and the digits of the low
surrogate; inside a literal name or a number. -/
inductive Lex where
  | ready
  | inStr (acc : List Char)
  | esc (acc : List Char)
  | uni (acc : List Char) (k v : Nat)
  | loSlash (acc : List Char) (hi : Nat)
  | loU (acc : List Char) (hi : Nat)
  | loHex (acc : List Char) (hi k v : Nat)
  | word (acc : List Char)
  deriving DecidableEq

/-- The value of a hexadecimal digit. -/
def hexVal (c : Char) : Option Nat :=
  if '0' ≤ c ∧ c ≤ '9' then some (c.toNat - 48)
  else if 'a' ≤ c ∧ c ≤ 'f' then some (c.toNat - 87)
  else if 'A' ≤ c ∧ c ≤ 'F' then some (c.toNat - 55)
  else none

/-- JSON white space. -/
def isWs (c : Char) : Bool :=
  c == ' ' || c == '\n' || c == '\r' || c == '\t'

/-- The characters of literal names and numbers. -/
def isWordChar (c : Char) : Bool :=
  c.isAlphanum || c == '-' || c == '+' || c == '.'

/-- One character read between tokens. -/
def lexReady (toks : List Token) (c : Char) : Option (Lex × List Token) :=
  if isWs c then some (.ready, toks)
  else if c = '[' then some (.ready, toks ++ [.lbracket])
  else if c = ']' then some (.ready, toks ++ [.rbracket])
  else if c = '{' then some (.ready, toks ++ [.lbrace])
  else if c = '}' then some (.ready, toks ++ [.rbrace])
  else if c = ':' then some (.ready, toks ++ [.colon])
  else if c = ',' then some (.ready, toks ++ [.comma])
  else if c = '"' then some (.inStr [], toks)
  else if isWordChar c then some (.word [c], toks)
  else none

/-- One step of the lexer. -/
def lexStep (st : Lex) (toks : List Token) (c : Char) : Option (Lex × List Token) :=
  match st with
  | .ready => lexReady toks c
  | .word acc =>
    if isWordChar c then some (.word (acc ++ [c]), toks)
    else lexReady (toks ++ [.word acc]) c
  | .inStr acc =>
    if c = '"' then some (.ready, toks ++ [.str acc])
    else if c = '\\' then some (.esc acc, toks)
    else if c.toNat < 32 then none
    else some (.inStr (acc ++ [c]), toks)
  | .esc acc =>
    if c = '"' ∨ c = '\\' ∨ c = '/' then some (.inStr (acc ++ [c]), toks)
    else if c = 'b' then some (.inStr (acc ++ [Char.ofNat 8]), toks)
    else if c = 'f' then some (.inStr (acc ++ [Char.ofNat 12]), toks)
    else if c = 'n' then some (.inStr (acc ++ ['\n']), toks)
    else if c = 'r' then some (.inStr (acc ++ ['\r']), toks)
    else if c = 't' then some (.inStr (acc ++ ['\t']), toks)
    else if c = 'u' then some (.uni acc 0 0, toks)
    else none
  | .uni acc k v =>
    match hexVal c with
    | none => none
    | some h =>
      let w := 16 * v + h
      if k < 3 then some (.uni acc (k + 1) w, toks)
      else if 0xD800 ≤ w ∧ w < 0xDC00 then some (.loSlash acc w, toks)
      else if 0xDC00 ≤ w ∧ w < 0xE000 then none
      else some (.inStr (acc ++ [Char.ofNat w]), toks)
  | .loSlash acc hi => if c = '\\' then some (.loU acc hi, toks) else none
  | .loU acc hi => if c = 'u' then some (.loHex acc hi 0 0, toks) else none
  | .loHex acc hi k v =>
    match hexVal c with
    | none => none
    | some h =>
      let w := 16 * v + h
      if k < 3 then some (.loHex acc hi (k + 1) w, toks)
      else if 0xDC00 ≤ w ∧ w < 0xE000 then
        some (.inStr (acc ++ [Char.ofNat (0x10000 + (hi - 0xD800) * 0x400 + (w - 0xDC00))]),
          toks)
      else none

/-- The lexer: the tokens of a text, or `none` when it is not made of JSON
tokens. -/
def lexLoop : List Char → Lex → List Token → Option (List Token)
  | [], .ready, toks => some toks
  | [], .word acc, toks => some (toks ++ [.word acc])
  | [], _, _ => none
  | c :: cs, st, toks =>
    match lexStep st toks c with
    | none => none
    | some (st1, toks1) => lexLoop cs st1 toks1

/-- The digits of a number, at least one: what is left after them. -/
def skipDigits : List Char → Option (List Char)
  | [] => none
  | c :: cs => if c.isDigit then some (cs.dropWhile Char.isDigit) else none

/-- The grammar of a JSON number: an optional minus sign, `0` or digits
without a leading zero, an optional fraction and an optional exponent. -/
def isNumber (w : List Char) : Bool :=
  let w1 := match w with
    | '-' :: r => r
    | r => r
  let afterInt : Option (List Char) := match w1 with
    | '0' :: r => some r
    | r => skipDigits r
  let afterFrac : Option (List Char) := match afterInt with
    | some ('.' :: r) => skipDigits r
    | other => other
  let afterExp : Option (List Char) := match afterFrac with
    | some (e :: r) =>
      if e = 'e' ∨ e = 'E' then
        match r with
        | '+' :: r1 => skipDigits r1
        | '-' :: r1 => skipDigits r1
        | r1 => skipDigits r1
      else some (e :: r)
    | other => other
  afterExp == some []

/-- The value of a literal name or number token. -/
def wordValue (w : List Char) : Option JSON :=
  if w = "true".data then some (.bool true)
  else if w = "false".data then some (.bool false)
  else if w = "null".data then some .null
  else if isNumber w then some (.num (String.mk w))
  else none

/-- Where a frame of the parser stands: in an array after `[`, after a value,
after a comma; in an object after the opening brace, after a key, after its
colon, after a value, after a comma. -/
inductive Expect where
  | first | afterValue | afterComma
  | afterKey (k : String) | afterColon (k : String)

/-- An open array or object with what it holds so far. -/
inductive Frame where
  | arr (elems : List JSON) (e : Expect)
  | obj (members : List (String × JSON)) (e : Expect)

/-- The state of the parser: the open arrays and objects, innermost first, and
the finished top-level value. -/
structure ParserState where
  stack : List Frame
  result : Option JSON

/-- A value is expected here. -/
def ParserState.wantsValue (p : ParserState) : Bool :=
  match p.stack with
  | [] => p.result.isNone
  | .arr _ .first :: _ => true
  | .arr _ .afterComma :: _ => true
  | .obj _ (.afterColon _) :: _ => true
  | _ => false

/-- A finished value goes to the innermost open array or object, or is the
top-level value. -/
def ParserState.deliver (stack : List Frame) (result : Option JSON) (v : JSON) : Option ParserState :=
  match stack with
  | [] => if result.isNone then some ⟨[], some v⟩ else none
  | .arr es .first :: r => some ⟨.arr (es ++ [v]) .afterValue :: r, result⟩
  | .arr es .afterComma :: r => some ⟨.arr (es ++ [v]) .afterValue :: r, result⟩
  | .obj ms (.afterColon k) :: r => some ⟨.obj (ms ++ [(k, v)]) .afterValue :: r, result⟩
  | _ => none

/-- One token read by the parser. -/
def parseStep (p : ParserState) (t : Token) : Option ParserState :=
  match t with
  | .lbracket => if p.wantsValue then some ⟨.arr [] .first :: p.stack, p.result⟩ else none
  | .lbrace => if p.wantsValue then some ⟨.obj [] .first :: p.stack, p.result⟩ else none
  | .rbracket =>
    match p.stack with
    | .arr es .first :: r => ParserState.deliver r p.result (.arr es)
    | .arr es .afterValue :: r => ParserState.deliver r p.result (.arr es)
    | _ => none
  | .rbrace =>
    match p.stack with
    | .obj ms .first :: r => ParserState.deliver r p.result (.obj ms)
    | .obj ms .afterValue :: r => ParserState.deliver r p.result (.obj ms)
    | _ => none
  | .comma =>
    match p.stack with
    | .arr es .afterValue :: r => some ⟨.arr es .afterComma :: r, p.result⟩
    | .obj ms .afterValue :: r => some ⟨.obj ms .afterComma :: r, p.result⟩
    | _ => none
  | .colon =>
    match p.stack with
    | .obj ms (.afterKey k) :: r => some ⟨.obj ms (.afterColon k) :: r, p.result⟩
    | _ => none
  | .str s =>
    match p.stack with
    | .obj ms .first :: r => some ⟨.obj ms (.afterKey (String.mk s)) :: r, p.result⟩
    | .obj ms .afterComma :: r => some ⟨.obj ms (.afterKey (String.mk s)) :: r, p.result⟩
    | _ => ParserState.deliver p.stack p.result (.str (String.mk s))
  | .word w =>
    match wordValue w with
    | none => none
    | some v => ParserState.deliver p.stack p.result v

/-- The parser: the value of a token sequence, or `none` when it is not one
JSON value. -/
def parseLoop : List Token → ParserState → Option JSON
  | [], p => if p.stack.isEmpty then p.result else none
  | t :: ts, p =>
    match parseStep p t with
    | none => none
    | some p1 => parseLoop ts p1

/-- The value of a JSON text, or `none` when the text is not JSON. -/
def parseJSON (text : String) : Option JSON :=
  match lexLoop text.data .ready [] with
  | none => none
  | some toks => parseLoop toks ⟨[], none⟩

/-- The tokens of one `URLPair`. -/
def objectTokens (p : URLPair) : List Token :=
  [.lbrace, .str "originalUrl".data, .colon, .str p.OriginalUrl.data, .comma,
    .str "newUrl".data, .colon, .str p.NewUrl.data, .rbrace]

/-- The tokens of an indented `[]URLPair`. -/
def arrayTokens : List URLPair → List Token
  | [] => [.lbracket, .rbracket]
  | p :: ps =>
    .lbracket :: objectTokens p ++ ps.flatMap (fun q => .comma :: objectTokens q)
      ++ [.rbracket]

/-- The JSON value of one `URLPair`. -/
def pairJSON (p : URLPair) : JSON :=
  .obj [("originalUrl", .str p.OriginalUrl), ("newUrl", .str p.NewUrl)]

/-! ## Sample inputs -/

/-- A sample command line: three URLs, plain output to standard output. -/
def sampleCtx : Context :=
  { args := ["http://a.com", "http://b.com", "http://c.com"], json := false, output := "" }

/-- A sample network: the unit 1 is rate limited, every other unit gets the
slug `x` followed by its index. -/
def sampleRespond (i : Nat) : PostResult :=
  if i = 1 then .response 429 none else .response 200 (some ("x" ++ toString i))

/-- A sample network: the unit 1 gets the status 500, every other unit gets
the slug `x` followed by its index. -/
def sampleRespond500 (i : Nat) : PostResult :=
  if i = 1 then .response 500 none else .response 200 (some ("x" ++ toString i))

/-- A sample file system: no file, every path writable. -/
def sampleFs : FileSystem := { files := [], unwritable := [] }

/-! ## `MarshalIndent` in closed form and the reference reader on it -/

theorem isHexDigit_hexDigit (n : Nat) : isHexDigit (hexDigit n) = true := by
  by_cases h : n < 16
  · interval_cases n <;> decide
  · have : hexDigit n = '0' := by
      unfold hexDigit
      rw [List.getD_eq_default]
      simp only [String.data]  
      simpa using h
    rw [this]; decide

theorem loop_char_plain (pfx ind : List Char) (c : Char) (rest : List Char)
    (et : Bool) (ps : List ParseState) (er : Option String) (d : Int) (dst : List Char)
    (h1 : c ≠ '"') (h2 : c ≠ '\\') (h3 : 32 ≤ c.toNat) :
    appendIndentLoop pfx ind (c :: rest) ⟨⟨.stateInString, et, ps, er⟩, false, d, dst⟩
      = appendIndentLoop pfx ind rest ⟨⟨.stateInString, et, ps, er⟩, false, d, dst ++ [c]⟩ := by
  have h3 : ¬ c.toNat < 32 := by omega
  simp [appendIndentLoop, Scanner.doStep, stateInString, indentEmit, h1, h2, h3]

/-- An escape sequence: a backslash and one of the letters the scanner accepts. -/
theorem loop_escape (pfx ind : List Char) (c : Char) (rest : List Char)
    (et : Bool) (ps : List ParseState) (er : Option String) (d : Int) (dst : List Char)
    (h : c = 'b' ∨ c = 'f' ∨ c = 'n' ∨ c = 'r' ∨ c = 't' ∨ c = '\\' ∨ c = '/' ∨ c = '"') :
    appendIndentLoop pfx ind ('\\' :: c :: rest) ⟨⟨.stateInString, et, ps, er⟩, false, d, dst⟩
      = appendIndentLoop pfx ind rest
          ⟨⟨.stateInString, et, ps, er⟩, false, d, dst ++ ['\\', c]⟩ := by
  simp [appendIndentLoop, Scanner.doStep, stateInString, stateInStringEsc, indentEmit, h]

theorem loop_unicode (pfx ind : List Char) (a b c e : Char) (rest : List Char)
    (et : Bool) (ps : List ParseState) (er : Option String) (d : Int) (dst : List Char)
    (ha : isHexDigit a = true) (hb : isHexDigit b = true) (hc : isHexDigit c = true)
    (he : isHexDigit e = true) :
    appendIndentLoop pfx ind ('\\' :: 'u' :: a :: b :: c :: e :: rest)
        ⟨⟨.stateInString, et, ps, er⟩, false, d, dst⟩
      = appendIndentLoop pfx ind rest
          ⟨⟨.stateInString, et, ps, er⟩, false, d, dst ++ ['\\', 'u', a, b, c, e]⟩ := by
  simp [appendIndentLoop, Scanner.doStep, stateInString, stateInStringEsc,
    stateInStringEscHex, indentEmit, ha, hb, hc, he]

theorem loop_appendStringChar (pfx ind : List Char) (c : Char) (rest : List Char)
    (et : Bool) (ps : List ParseState) (er : Option String) (d : Int) (dst : List Char) :
    appendIndentLoop pfx ind (appendStringChar c ++ rest)
        ⟨⟨.stateInString, et, ps, er⟩, false, d, dst⟩
      = appendIndentLoop pfx ind rest
          ⟨⟨.stateInString, et, ps, er⟩, false, d, dst ++ appendStringChar c⟩ := by
  unfold appendStringChar
  split_ifs with h1 h2 h3 h4 h5 h6 h7 h8 h9
  · apply loop_char_plain
    · rintro rfl; simp [htmlSafeSet] at h2
    · rintro rfl; simp [htmlSafeSet] at h2
    · simp [htmlSafeSet] at h2; exact h2.1.1
  · rcases h3 with rfl | rfl <;> exact loop_escape _ _ _ _ _ _ _ _ _ (by simp)
  · exact loop_escape _ _ _ _ _ _ _ _ _ (by simp)
  · exact loop_escape _ _ _ _ _ _ _ _ _ (by simp)
  · exact loop_escape _ _ _ _ _ _ _ _ _ (by simp)
  · exact loop_escape _ _ _ _ _ _ _ _ _ (by simp)
  · exact loop_escape _ _ _ _ _ _ _ _ _ (by simp)
  · exact loop_unicode _ _ _ _ _ _ _ _ _ _ _ _ (by decide) (by decide)
      (isHexDigit_hexDigit _) (isHexDigit_hexDigit _)
  · exact loop_unicode _ _ _ _ _ _ _ _ _ _ _ _ (by decide) (by decide) (by decide)
      (isHexDigit_hexDigit _)
  · apply loop_char_plain
    · rintro rfl; simp at h1
    · rintro rfl; simp at h1
    · omega

theorem loop_stringBody (pfx ind : List Char) (s : List Char) (rest : List Char)
    (et : Bool) (ps : List ParseState) (er : Option String) (d : Int) (dst : List Char) :
    appendIndentLoop pfx ind (s.flatMap appendStringChar ++ '"' :: rest)
        ⟨⟨.stateInString, et, ps, er⟩, false, d, dst⟩
      = appendIndentLoop pfx ind rest
          ⟨⟨.stateEndValue, et, ps, er⟩, false, d,
            dst ++ (s.flatMap appendStringChar ++ ['"'])⟩ := by
  induction s generalizing dst with
  | nil => simp [appendIndentLoop, Scanner.doStep, stateInString, indentEmit]
  | cons c cs ih =>
    rw [List.flatMap_cons, List.append_assoc, loop_appendStringChar, ih]
    simp

theorem appendString_eq (dst : List Char) (s : String) :
    appendString dst s = dst ++ quoted s := by
  simp [appendString, quoted]

theorem encodeURLPair_eq (e : List Char) (p : URLPair) :
    encodeURLPair e p = e ++ compactObject p := by
  simp [encodeURLPair, compactObject, appendString_eq]

theorem step_openBrace (rest : List Char) (b : Bool) (step : Step)
    (hstep : step = .stateBeginValue ∨ step = .stateBeginValueOrEmpty) (dst : List Char) :
    appendIndentLoop [] [' ', ' '] ('{' :: rest)
        ⟨⟨step, false, [.parseArrayValue], none⟩, b, if b then 0 else 1, dst⟩
      = appendIndentLoop [] [' ', ' '] rest
          ⟨⟨.stateBeginStringOrEmpty, false, [.parseObjectKey, .parseArrayValue], none⟩,
            true, 1, dst ++ ((if b then ['\n', ' ', ' '] else []) ++ ['{'])⟩ := by
  rcases hstep with rfl | rfl <;> cases b <;>
    simp [appendIndentLoop, Scanner.doStep, stateBeginValue, stateBeginValueOrEmpty,
      indentEmit, isSpace, Scanner.pushParseState, maxNestingDepth, appendNewline]

theorem step_firstKey (rest : List Char) (ps : List ParseState) (dst : List Char) :
    appendIndentLoop [] [' ', ' '] ('"' :: rest)
        ⟨⟨.stateBeginStringOrEmpty, false, ps, none⟩, true, 1, dst⟩
      = appendIndentLoop [] [' ', ' '] rest
          ⟨⟨.stateInString, false, ps, none⟩, false, 2,
            dst ++ ['\n', ' ', ' ', ' ', ' ', '"']⟩ := by
  simp [appendIndentLoop, Scanner.doStep, stateBeginStringOrEmpty, stateBeginString,
    indentEmit, isSpace, appendNewline]

theorem step_colon (rest : List Char) (ps : List ParseState) (d : Int) (dst : List Char) :
    appendIndentLoop [] [' ', ' '] (':' :: '"' :: rest)
        ⟨⟨.stateEndValue, false, .parseObjectKey :: ps, none⟩, false, d, dst⟩
      = appendIndentLoop [] [' ', ' '] rest
          ⟨⟨.stateInString, false, .parseObjectValue :: ps, none⟩, false, d,
            dst ++ [':', ' ', '"']⟩ := by
  simp [appendIndentLoop, Scanner.doStep, stateEndValue, stateBeginValue,
    indentEmit, isSpace]

theorem step_memberComma (rest : List Char) (ps : List ParseState) (dst : List Char) :
    appendIndentLoop [] [' ', ' '] (',' :: '"' :: rest)
        ⟨⟨.stateEndValue, false, .parseObjectValue :: ps, none⟩, false, 2, dst⟩
      = appendIndentLoop [] [' ', ' '] rest
          ⟨⟨.stateInString, false, .parseObjectKey :: ps, none⟩, false, 2,
            dst ++ [',', '\n', ' ', ' ', ' ', ' ', '"']⟩ := by
  simp [appendIndentLoop, Scanner.doStep, stateEndValue, stateBeginString,
    indentEmit, isSpace, appendNewline]

theorem step_closeBrace (rest : List Char) (dst : List Char) :
    appendIndentLoop [] [' ', ' '] ('}' :: rest)
        ⟨⟨.stateEndValue, false, [.parseObjectValue, .parseArrayValue], none⟩, false, 2, dst⟩
      = appendIndentLoop [] [' ', ' '] rest
          ⟨⟨.stateEndValue, false, [.parseArrayValue], none⟩, false, 1,
            dst ++ ['\n', ' ', ' ', '}']⟩ := by
  simp [appendIndentLoop, Scanner.doStep, stateEndValue, Scanner.popParseState,
    indentEmit, isSpace, appendNewline]

theorem loop_object (p : URLPair) (rest : List Char) (b : Bool) (step : Step)
    (hstep : step = .stateBeginValue ∨ step = .stateBeginValueOrEmpty)
    (dst : List Char) :
    appendIndentLoop [] [' ', ' '] (compactObject p ++ rest)
        ⟨⟨step, false, [.parseArrayValue], none⟩, b, if b then 0 else 1, dst⟩
      = appendIndentLoop [] [' ', ' '] rest
          ⟨⟨.stateEndValue, false, [.parseArrayValue], none⟩, false, 1,
            dst ++ ((if b then ['\n', ' ', ' '] else []) ++ indentedObject p)⟩ := by
  have k1 : "originalUrl".data.flatMap appendStringChar = "originalUrl".data := by decide
  have k2 : "newUrl".data.flatMap appendStringChar = "newUrl".data := by decide
  have e1 : "\x7b\n    \"originalUrl\": ".data
      = '{' :: '\n' :: ' ' :: ' ' :: ' ' :: ' ' :: '"' :: "originalUrl".data ++ ['"', ':', ' '] := by
    decide
  have e2 : ",\n    \"newUrl\": ".data
      = ',' :: '\n' :: ' ' :: ' ' :: ' ' :: ' ' :: '"' :: "newUrl".data ++ ['"', ':', ' '] := by
    decide
  have e3 : "\n  \x7d".data = ['\n', ' ', ' ', '}'] := by decide
  unfold compactObject indentedObject quoted
  rw [e1, e2, e3]
  generalize "originalUrl".data = K1 at k1 ⊢
  generalize "newUrl".data = K2 at k2 ⊢
  generalize p.OriginalUrl.data = O
  generalize p.NewUrl.data = N
  simp only [List.append_assoc, List.cons_append, List.nil_append, List.singleton_append]
  rw [step_openBrace _ _ _ hstep, step_firstKey]
  nth_rewrite 1 [← k1]
  rw [loop_stringBody, step_colon, loop_stringBody, step_memberComma]
  nth_rewrite 1 [← k2]
  rw [loop_stringBody, step_colon, loop_stringBody, step_closeBrace, k1, k2]
  congr 1
  cases b <;> simp

theorem encodeElems_succ (e : List Char) (i : Nat) (ps : List URLPair) :
    encodeElems e (i + 1) ps = e ++ ps.flatMap (fun q => ',' :: compactObject q) := by
  induction ps generalizing e i with
  | nil => simp [encodeElems]
  | cons p ps ih => simp [encodeElems, ih, encodeURLPair_eq]

theorem encodeElems_zero_cons (e : List Char) (p : URLPair) (ps : List URLPair) :
    encodeElems e 0 (p :: ps)
      = e ++ (compactObject p ++ ps.flatMap (fun q => ',' :: compactObject q)) := by
  simp [encodeElems, encodeElems_succ, encodeURLPair_eq]

theorem step_elemComma (rest : List Char) (dst : List Char) :
    appendIndentLoop [] [' ', ' '] (',' :: rest)
        ⟨⟨.stateEndValue, false, [.parseArrayValue], none⟩, false, 1, dst⟩
      = appendIndentLoop [] [' ', ' '] rest
          ⟨⟨.stateBeginValue, false, [.parseArrayValue], none⟩, false, 1,
            dst ++ [',', '\n', ' ', ' ']⟩ := by
  simp [appendIndentLoop, Scanner.doStep, stateEndValue, indentEmit, isSpace, appendNewline]

theorem loop_elems (ps : List URLPair) (rest : List Char) (dst : List Char) :
    appendIndentLoop [] [' ', ' '] (ps.flatMap (fun q => ',' :: compactObject q) ++ rest)
        ⟨⟨.stateEndValue, false, [.parseArrayValue], none⟩, false, 1, dst⟩
      = appendIndentLoop [] [' ', ' '] rest
          ⟨⟨.stateEndValue, false, [.parseArrayValue], none⟩, false, 1,
            dst ++ ps.flatMap (fun q => ',' :: '\n' :: ' ' :: ' ' :: indentedObject q)⟩ := by
  induction ps generalizing dst with
  | nil => simp
  | cons p ps ih =>
    rw [List.flatMap_cons, List.append_assoc, List.cons_append, step_elemComma]
    have h := loop_object p (ps.flatMap (fun q => ',' :: compactObject q) ++ rest) false
      .stateBeginValue (Or.inl rfl) (dst ++ [',', '\n', ' ', ' '])
    simp only [Bool.false_eq_true, if_false] at h
    rw [h, ih]
    simp

theorem appendIndent_Marshal (v : List URLPair) :
    appendIndent (Marshal v) [] [' ', ' '] = .ok (indentedArray v) := by
  cases v with
  | nil =>
    simp [appendIndent, Marshal, encodeElems, appendIndentLoop, Scanner.reset,
      Scanner.doStep, stateBeginValue, stateBeginValueOrEmpty, stateEndValue,
      Scanner.pushParseState, Scanner.popParseState, maxNestingDepth, indentEmit, isSpace,
      Scanner.eof, indentedArray]
  | cons p ps =>
    have h0 : ∀ rest, appendIndentLoop [] [' ', ' '] ('[' :: rest)
        ⟨Scanner.reset, false, 0, []⟩
        = appendIndentLoop [] [' ', ' '] rest
          ⟨⟨.stateBeginValueOrEmpty, false, [.parseArrayValue], none⟩, true, 0, ['[']⟩ := by
      intro rest
      simp [appendIndentLoop, Scanner.reset, Scanner.doStep, stateBeginValue,
        Scanner.pushParseState, maxNestingDepth, indentEmit, isSpace]
    have h1 := loop_object p (ps.flatMap (fun q => ',' :: compactObject q) ++ [']']) true
      .stateBeginValueOrEmpty (Or.inr rfl) ['[']
    simp only [if_true] at h1
    have h2 : ∀ dst, appendIndentLoop [] [' ', ' '] [']']
        ⟨⟨.stateEndValue, false, [.parseArrayValue], none⟩, false, 1, dst⟩
        = ⟨⟨.stateEndTop, true, [], none⟩, false, 0, dst ++ ['\n', ']']⟩ := by
      intro dst
      simp [appendIndentLoop, Scanner.doStep, stateEndValue, Scanner.popParseState,
        indentEmit, isSpace, appendNewline]
    unfold appendIndent Marshal
    rw [encodeElems_zero_cons]
    simp only [List.append_assoc, List.cons_append, List.nil_append, List.singleton_append]
    rw [h0, h1, loop_elems, h2]
    simp [Scanner.eof, indentedArray]

theorem MarshalIndent_eq (v : List URLPair) :
    MarshalIndent v "" "  " = .ok (String.mk (indentedArray v)) := by
  unfold MarshalIndent
  have h := appendIndent_Marshal v
  have e1 : "".data = [] := rfl
  have e2 : "  ".data = [' ', ' '] := rfl
  rw [e1, e2, h]

theorem hexVal_hexDigit (n : Nat) (h : n < 16) : hexVal (hexDigit n) = some n := by
  interval_cases n <;> decide

theorem lex_plain (c : Char) (rest : List Char) (acc : List Char) (toks : List Token)
    (h1 : c ≠ '"') (h2 : c ≠ '\\') (h3 : 32 ≤ c.toNat) :
    lexLoop (c :: rest) (.inStr acc) toks = lexLoop rest (.inStr (acc ++ [c])) toks := by
  have h3 : ¬ c.toNat < 32 := by omega
  simp [lexLoop, lexStep, h1, h2, h3]

theorem lex_unicode (a b : Char) (m n : Nat) (rest : List Char) (acc : List Char)
    (toks : List Token) (ha : hexVal a = some m) (hb : hexVal b = some n)
    (hm : m < 16) (hn : n < 16) :
    lexLoop ('\\' :: 'u' :: '0' :: '0' :: a :: b :: rest) (.inStr acc) toks
      = lexLoop rest (.inStr (acc ++ [Char.ofNat (16 * m + n)])) toks := by
  have h0 : hexVal '0' = some 0 := by decide
  have g1 : ¬ (55296 ≤ 16 * m + n) := by omega
  have g2 : ¬ (56320 ≤ 16 * m + n) := by omega
  simp [lexLoop, lexStep, h0, ha, hb, g1, g2]

theorem lex_separator (b : Char) (n : Nat) (rest : List Char) (acc : List Char)
    (toks : List Token) (hb : hexVal b = some n) (hn : n < 16) :
    lexLoop ('\\' :: 'u' :: '2' :: '0' :: '2' :: b :: rest) (.inStr acc) toks
      = lexLoop rest (.inStr (acc ++ [Char.ofNat (8224 + n)])) toks := by
  have h0 : hexVal '0' = some 0 := by decide
  have h2 : hexVal '2' = some 2 := by decide
  have g1 : ¬ (55296 ≤ 16 * 514 + n) := by omega
  have g2 : ¬ (56320 ≤ 16 * 514 + n) := by omega
  have g3 : 16 * 514 + n = 8224 + n := by omega
  simp [lexLoop, lexStep, h0, h2, hb, g1, g2, g3]

theorem lex_appendStringChar (c : Char) (rest : List Char) (acc : List Char)
    (toks : List Token) :
    lexLoop (appendStringChar c ++ rest) (.inStr acc) toks
      = lexLoop rest (.inStr (acc ++ [c])) toks := by
  unfold appendStringChar
  split_ifs with h1 h2 h3 h4 h5 h6 h7 h8 h9
  · apply lex_plain
    · rintro rfl; simp [htmlSafeSet] at h2
    · rintro rfl; simp [htmlSafeSet] at h2
    · simp [htmlSafeSet] at h2; exact h2.1.1
  · rcases h3 with rfl | rfl <;> simp [lexLoop, lexStep]
  · subst h4; simp [lexLoop, lexStep]
  · subst h5; simp [lexLoop, lexStep]
  · subst h6; simp [lexLoop, lexStep]
  · subst h7; simp [lexLoop, lexStep]
  · subst h8; simp [lexLoop, lexStep]
  · have e := lex_unicode (hexDigit (c.toNat / 16)) (hexDigit (c.toNat % 16)) (c.toNat / 16)
      (c.toNat % 16) rest acc toks (hexVal_hexDigit _ (by omega)) (hexVal_hexDigit _ (by omega))
      (by omega) (by omega)
    have e2 : 16 * (c.toNat / 16) + c.toNat % 16 = c.toNat := by omega
    rw [e2, Char.ofNat_toNat] at e
    exact e
  · have hn : c.toNat % 16 < 16 := by omega
    have e := lex_separator (hexDigit (c.toNat % 16)) (c.toNat % 16) rest acc toks
      (hexVal_hexDigit _ hn) hn
    have e2 : Char.ofNat (8224 + c.toNat % 16) = c := by
      rcases h9 with rfl | rfl <;> decide
    rw [e2] at e
    exact e
  · apply lex_plain
    · rintro rfl; simp at h1
    · rintro rfl; simp at h1
    · omega

theorem lex_stringBody (s : List Char) (rest : List Char) (acc : List Char)
    (toks : List Token) :
    lexLoop (s.flatMap appendStringChar ++ '"' :: rest) (.inStr acc) toks
      = lexLoop rest .ready (toks ++ [.str (acc ++ s)]) := by
  induction s generalizing acc with
  | nil => simp [lexLoop, lexStep]
  | cons c cs ih =>
    rw [List.flatMap_cons, List.append_assoc, lex_appendStringChar, ih]
    simp

theorem lex_open (rest : List Char) (toks : List Token) :
    lexLoop ('{' :: '\n' :: ' ' :: ' ' :: ' ' :: ' ' :: '"' :: rest) .ready toks
      = lexLoop rest (.inStr []) (toks ++ [.lbrace]) := by
  simp [lexLoop, lexStep, lexReady, isWs]

theorem lex_colon (rest : List Char) (toks : List Token) :
    lexLoop (':' :: ' ' :: '"' :: rest) .ready toks
      = lexLoop rest (.inStr []) (toks ++ [.colon]) := by
  simp [lexLoop, lexStep, lexReady, isWs]

theorem lex_memberComma (rest : List Char) (toks : List Token) :
    lexLoop (',' :: '\n' :: ' ' :: ' ' :: ' ' :: ' ' :: '"' :: rest) .ready toks
      = lexLoop rest (.inStr []) (toks ++ [.comma]) := by
  simp [lexLoop, lexStep, lexReady, isWs]

theorem lex_close (rest : List Char) (toks : List Token) :
    lexLoop ('\n' :: ' ' :: ' ' :: '}' :: rest) .ready toks
      = lexLoop rest .ready (toks ++ [.rbrace]) := by
  simp [lexLoop, lexStep, lexReady, isWs]

theorem lex_elemComma (rest : List Char) (toks : List Token) :
    lexLoop (',' :: '\n' :: ' ' :: ' ' :: rest) .ready toks
      = lexLoop rest .ready (toks ++ [.comma]) := by
  simp [lexLoop, lexStep, lexReady, isWs]

theorem lex_object (p : URLPair) (rest : List Char) (toks : List Token) :
    lexLoop (indentedObject p ++ rest) .ready toks
      = lexLoop rest .ready (toks ++ objectTokens p) := by
  have k1 : "originalUrl".data.flatMap appendStringChar = "originalUrl".data := by decide
  have k2 : "newUrl".data.flatMap appendStringChar = "newUrl".data := by decide
  have e1 : "\x7b\n    \"originalUrl\": ".data
      = '{' :: '\n' :: ' ' :: ' ' :: ' ' :: ' ' :: '"' :: "originalUrl".data ++ ['"', ':', ' '] := by
    decide
  have e2 : ",\n    \"newUrl\": ".data
      = ',' :: '\n' :: ' ' :: ' ' :: ' ' :: ' ' :: '"' :: "newUrl".data ++ ['"', ':', ' '] := by
    decide
  have e3 : "\n  \x7d".data = ['\n', ' ', ' ', '}'] := by decide
  unfold indentedObject quoted objectTokens
  rw [e1, e2, e3]
  generalize "originalUrl".data = K1 at k1 ⊢
  generalize "newUrl".data = K2 at k2 ⊢
  generalize p.OriginalUrl.data = O
  generalize p.NewUrl.data = N
  simp only [List.append_assoc, List.cons_append, List.nil_append, List.singleton_append]
  rw [lex_open]
  nth_rewrite 1 [← k1]
  rw [lex_stringBody, lex_colon, lex_stringBody, lex_memberComma]
  nth_rewrite 1 [← k2]
  rw [lex_stringBody, lex_colon, lex_stringBody, lex_close]
  simp

theorem lex_elems (ps : List URLPair) (rest : List Char) (toks : List Token) :
    lexLoop (ps.flatMap (fun q => ',' :: '\n' :: ' ' :: ' ' :: indentedObject q) ++ rest)
        .ready toks
      = lexLoop rest .ready (toks ++ ps.flatMap (fun q => .comma :: objectTokens q)) := by
  induction ps generalizing toks with
  | nil => simp
  | cons p ps ih =>
    rw [List.flatMap_cons, List.append_assoc]
    simp only [List.cons_append]
    rw [lex_elemComma, lex_object, ih]
    simp

theorem lex_indentedArray (v : List URLPair) :
    lexLoop (indentedArray v) .ready [] = some (arrayTokens v) := by
  cases v with
  | nil => simp [indentedArray, arrayTokens, lexLoop, lexStep, lexReady, isWs]
  | cons p ps =>
    have h0 : ∀ rest, lexLoop ('[' :: '\n' :: ' ' :: ' ' :: rest) .ready []
        = lexLoop rest .ready [.lbracket] := by
      intro rest
      simp [lexLoop, lexStep, lexReady, isWs]
    have h2 : ∀ toks, lexLoop ['\n', ']'] .ready toks = some (toks ++ [.rbracket]) := by
      intro toks
      simp [lexLoop, lexStep, lexReady, isWs]
    unfold indentedArray arrayTokens
    simp only [List.append_assoc, List.cons_append, List.nil_append]
    rw [h0, lex_object, lex_elems, h2]
    simp

theorem parse_object (p : URLPair) (ts : List Token) (es : List JSON) (e : Expect)
    (he : e = .first ∨ e = .afterComma) (res : Option JSON) :
    parseLoop (objectTokens p ++ ts) ⟨[.arr es e], res⟩
      = parseLoop ts ⟨[.arr (es ++ [pairJSON p]) .afterValue], res⟩ := by
  rcases he with rfl | rfl <;>
    simp [objectTokens, parseLoop, parseStep, ParserState.wantsValue, ParserState.deliver, pairJSON]

theorem parse_elems (ps : List URLPair) (ts : List Token) (es : List JSON)
    (res : Option JSON) :
    parseLoop (ps.flatMap (fun q => .comma :: objectTokens q) ++ ts)
        ⟨[.arr es .afterValue], res⟩
      = parseLoop ts ⟨[.arr (es ++ ps.map pairJSON) .afterValue], res⟩ := by
  induction ps generalizing es with
  | nil => simp
  | cons p ps ih =>
    rw [List.flatMap_cons, List.append_assoc, List.cons_append]
    have h : parseLoop (Token.comma :: (objectTokens p
          ++ (ps.flatMap (fun q => Token.comma :: objectTokens q) ++ ts)))
          ⟨[.arr es .afterValue], res⟩
        = parseLoop (objectTokens p
          ++ (ps.flatMap (fun q => Token.comma :: objectTokens q) ++ ts))
          ⟨[.arr es .afterComma], res⟩ := by
      simp [parseLoop, parseStep]
    rw [h, parse_object _ _ _ _ (Or.inr rfl), ih]
    simp

theorem parse_arrayTokens (v : List URLPair) :
    parseLoop (arrayTokens v) ⟨[], none⟩ = some (.arr (v.map pairJSON)) := by
  cases v with
  | nil => simp [arrayTokens, parseLoop, parseStep, ParserState.wantsValue, ParserState.deliver]
  | cons p ps =>
    have h0 : ∀ ts, parseLoop (Token.lbracket :: ts) ⟨[], none⟩
        = parseLoop ts ⟨[.arr [] .first], none⟩ := by
      intro ts
      simp [parseLoop, parseStep, ParserState.wantsValue]
    have h2 : ∀ es, parseLoop [Token.rbracket] ⟨[.arr es .afterValue], none⟩
        = some (.arr es) := by
      intro es
      simp [parseLoop, parseStep, ParserState.deliver]
    unfold arrayTokens
    simp only [List.append_assoc, List.cons_append]
    rw [h0, parse_object _ _ _ _ (Or.inl rfl), parse_elems, h2]
    simp

theorem parseJSON_indentedArray (v : List URLPair) :
    parseJSON (String.mk (indentedArray v)) = some (.arr (v.map pairJSON)) := by
  unfold parseJSON
  simp only [lex_indentedArray, parse_arrayTokens]

/-! ## Plain output -/

theorem foldl_join_append (sep : String) (rest : List String) (x y : String) :
    rest.foldl (fun b s => (b ++ sep) ++ s) (x ++ y)
      = x ++ rest.foldl (fun b s => (b ++ sep) ++ s) y := by
  induction rest generalizing y with
  | nil => rfl
  | cons r rs ih =>
    simp only [List.foldl_cons]
    rw [String.append_assoc, String.append_assoc, ih, String.append_assoc]

theorem stringsJoin_cons_eq_foldl (sep : String) (e : String) (rest : List String) :
    stringsJoin (e :: rest) sep = rest.foldl (fun b s => (b ++ sep) ++ s) e := by
  cases rest <;> rfl

theorem stringsJoin_cons_cons (sep : String) (a b : String) (rest : List String) :
    stringsJoin (a :: b :: rest) sep = a ++ sep ++ stringsJoin (b :: rest) sep := by
  rw [stringsJoin_cons_eq_foldl, stringsJoin_cons_eq_foldl, List.foldl_cons,
    foldl_join_append]

theorem intercalate_go_eq_foldl (sep : String) (rest : List String) (acc : String) :
    String.intercalate.go acc sep rest = rest.foldl (fun b s => (b ++ sep) ++ s) acc := by
  induction rest generalizing acc with
  | nil => rfl
  | cons r rs ih => simp only [String.intercalate.go, List.foldl_cons, ih]

theorem stringsJoin_eq_intercalate (sep : String) (elems : List String) :
    stringsJoin elems sep = sep.intercalate elems := by
  cases elems with
  | nil => rfl
  | cons e rest =>
    rw [stringsJoin_cons_eq_foldl]
    simp only [String.intercalate, intercalate_go_eq_foldl]

theorem splitOnNewline_plain (a : List Char) (h : '\n' ∉ a) : splitOnNewline a = [a] := by
  induction a with
  | nil => rfl
  | cons c cs ih =>
    have hc : c ≠ '\n' := fun e => h (by simp [e])
    have hcs : '\n' ∉ cs := fun e => h (by simp [e])
    simp [splitOnNewline, hc, ih hcs]

theorem splitOnNewline_append (a rest : List Char) (h : '\n' ∉ a) :
    splitOnNewline (a ++ '\n' :: rest) = a :: splitOnNewline rest := by
  induction a with
  | nil => simp [splitOnNewline]
  | cons c cs ih =>
    have hc : c ≠ '\n' := fun e => h (by simp [e])
    have hcs : '\n' ∉ cs := fun e => h (by simp [e])
    simp [splitOnNewline, hc, ih hcs]

theorem lines_standardOutput (rs : List String) (hne : rs ≠ [])
    (hnl : ∀ r ∈ rs, '\n' ∉ r.data) : lines (standardOutput rs) = rs := by
  induction rs with
  | nil => exact absurd rfl hne
  | cons a rest ih =>
    cases rest with
    | nil =>
      have ha := hnl a (by simp)
      simp [lines, standardOutput, stringsJoin, splitOnNewline_plain _ ha]
    | cons b rest =>
      have ha := hnl a (by simp)
      have ih2 := ih (by simp) (fun r hr => hnl r (by simp [hr]))
      unfold lines standardOutput at *
      rw [stringsJoin_cons_cons]
      have e : (a ++ "\n" ++ stringsJoin (b :: rest) "\n").data
          = a.data ++ '\n' :: (stringsJoin (b :: rest) "\n").data := by
        simp [String.data_append]
      rw [e, splitOnNewline_append _ _ ha, List.map_cons, ih2]

theorem makeOutput_eq (slug : String) : makeOutput slug = "https://dlgfy.xyz/" ++ slug := by
  apply String.ext
  simp [makeOutput, REDIRECT_ENDPOINT]

theorem makeOutput_ne_empty (slug : String) : makeOutput slug ≠ "" := by
  intro h
  have h2 := congrArg String.length h
  rw [makeOutput_eq] at h2
  simp at h2
  have : "https://dlgfy.xyz/".length = 18 := by decide
  omega

/-! ## The units and the barrier -/

theorem goroutine_fatal (url : String) (i : Nat) (r : PostResult) (st : Batch)
    (h : r.isFatal = true) : ∃ e, goroutine url i r st = .error e := by
  cases r with
  | transportError => exact ⟨_, rfl⟩
  | response code decoded =>
    simp [PostResult.isFatal] at h
    obtain ⟨h1, h2⟩ := h
    subst h1
    cases decoded with
    | none => exact ⟨_, rfl⟩
    | some s => simp at h2

theorem goroutine_ok (url : String) (i : Nat) (r : PostResult) (st : Batch)
    (h : r.isFatal = false) :
    ∃ st1, goroutine url i r st = .ok st1 ∧
      (st1.shortenedURLs = st.shortenedURLs.set i (unitEntry r) ∨
        (st1.shortenedURLs = st.shortenedURLs ∧ unitEntry r = "")) := by
  cases r with
  | transportError => simp [PostResult.isFatal] at h
  | response code decoded =>
    by_cases h200 : code = 200
    · subst h200
      cases decoded with
      | none => simp [PostResult.isFatal] at h
      | some slug => exact ⟨_, rfl, Or.inl rfl⟩
    · by_cases h429 : code = 429
      · subst h429
        refine ⟨_, rfl, Or.inl ?_⟩
        cases decoded <;> simp [unitEntry]
      · refine ⟨st, ?_, Or.inr ⟨rfl, ?_⟩⟩
        · simp [goroutine, h200, h429]
        · cases decoded <;> simp [unitEntry, h200]

theorem Settled_step (respond : Nat → PostResult) (n : Nat) (l l1 : List String)
    (finished : Nat → Prop) (i : Nat) (h : Settled respond n l finished)
    (h1 : l1 = l.set i (unitEntry (respond i)) ∨ (l1 = l ∧ unitEntry (respond i) = "")) :
    Settled respond n l1 (fun j => finished j ∨ j = i) := by
  obtain ⟨hlen, hent⟩ := h
  rcases h1 with rfl | ⟨rfl, hempty⟩
  · refine ⟨by simp [hlen], fun j hj => ⟨fun hf => ?_, fun hf => ?_⟩⟩
    · by_cases hji : i = j
      · subst hji
        rw [List.getElem?_set_self (by omega)]
      · rw [List.getElem?_set_ne hji]
        rcases hf with hf | hf
        · exact (hent j hj).1 hf
        · exact absurd hf.symm hji
    · have hji : i ≠ j := fun e => hf (Or.inr e.symm)
      rw [List.getElem?_set_ne hji]
      exact (hent j hj).2 (fun hf1 => hf (Or.inl hf1))
  · refine ⟨hlen, fun j hj => ⟨fun hf => ?_, fun hf => ?_⟩⟩
    · rcases hf with hf | hf
      · exact (hent j hj).1 hf
      · subst hf
        by_cases hfin : finished j
        · exact (hent j hj).1 hfin
        · rw [hempty]; exact (hent j hj).2 hfin
    · exact (hent j hj).2 (fun hf1 => hf (Or.inl hf1))

theorem awaitAll_ok (urls : List String) (respond : Nat → PostResult) (n : Nat)
    (order : List Nat) (st : Batch) (finished : Nat → Prop)
    (h : Settled respond n st.shortenedURLs finished)
    (hok : ∀ i ∈ order, (respond i).isFatal = false) :
    ∃ st1, awaitAll urls respond order st = .ok st1 ∧
      Settled respond n st1.shortenedURLs (fun j => finished j ∨ j ∈ order) := by
  induction order generalizing st finished with
  | nil => exact ⟨st, rfl, by simpa using h⟩
  | cons i rest ih =>
    obtain ⟨st1, hg, hst1⟩ := goroutine_ok (urls.getD i "") i (respond i) st (hok i (by simp))
    have hs := Settled_step respond n _ _ finished i h hst1
    obtain ⟨st2, ha, hst2⟩ := ih st1 _ hs (fun j hj => hok j (by simp [hj]))
    refine ⟨st2, ?_, ?_⟩
    · simp only [awaitAll, hg, ha]
    · have e : (fun j => (finished j ∨ j = i) ∨ j ∈ rest)
          = (fun j => finished j ∨ j ∈ i :: rest) := by
        funext j
        simp [or_assoc]
      rw [← e]
      exact hst2

theorem awaitAll_fatal (urls : List String) (respond : Nat → PostResult)
    (order : List Nat) (st : Batch)
    (h : ∃ i ∈ order, (respond i).isFatal = true) :
    ∃ e, awaitAll urls respond order st = .error e := by
  induction order generalizing st with
  | nil => simp at h
  | cons i rest ih =>
    by_cases hi : (respond i).isFatal = true
    · obtain ⟨e, he⟩ := goroutine_fatal (urls.getD i "") i (respond i) st hi
      exact ⟨e, by simp only [awaitAll, he]⟩
    · obtain ⟨st1, hg, -⟩ := goroutine_ok (urls.getD i "") i (respond i) st (by simpa using hi)
      obtain ⟨j, hj, hjf⟩ := h
      have hj2 : j ∈ rest := by
        rcases List.mem_cons.mp hj with rfl | hj2
        · exact absurd hjf hi
        · exact hj2
      obtain ⟨e, he⟩ := ih st1 ⟨j, hj2, hjf⟩
      exact ⟨e, by simp only [awaitAll, hg, he]⟩

theorem anyFatal_eq_false (respond : Nat → PostResult) (n : Nat) :
    anyFatal respond n = false ↔ ∀ i, i < n → (respond i).isFatal = false := by
  simp [anyFatal, List.mem_range]

theorem anyFatal_eq_true (respond : Nat → PostResult) (n : Nat) :
    anyFatal respond n = true ↔ ∃ i, i < n ∧ (respond i).isFatal = true := by
  simp [anyFatal, List.mem_range]

theorem awaitAll_perm_ok (urls : List String) (respond : Nat → PostResult)
    (order : List Nat) (horder : order.Perm (List.range urls.length))
    (hok : anyFatal respond urls.length = false) :
    ∃ st1, awaitAll urls respond order
        { shortenedURLs := List.replicate urls.length "", stderr := [] } = .ok st1 ∧
      st1.shortenedURLs = expectedResults respond urls.length := by
  have hinit : Settled respond urls.length (List.replicate urls.length "")
      (fun _ => False) := by
    refine ⟨by simp, fun j hj => ⟨fun hf => absurd hf id, fun _ => ?_⟩⟩
    simp [List.getElem?_replicate, hj]
  have hall : ∀ i ∈ order, (respond i).isFatal = false := by
    intro i hi
    exact (anyFatal_eq_false respond _).mp hok i (List.mem_range.mp (horder.mem_iff.mp hi))
  obtain ⟨st1, ha, hlen, hent⟩ := awaitAll_ok urls respond urls.length order
    { shortenedURLs := List.replicate urls.length "", stderr := [] } _ hinit hall
  refine ⟨st1, ha, ?_⟩
  apply List.ext_getElem?
  intro j
  by_cases hj : j < urls.length
  · rw [(hent j hj).1 (Or.inr (horder.mem_iff.mpr (List.mem_range.mpr hj)))]
    simp [expectedResults, List.getElem?_range hj]
  · rw [List.getElem?_eq_none (by omega), List.getElem?_eq_none]
    simp [expectedResults]; omega

theorem awaitAll_perm_fatal (urls : List String) (respond : Nat → PostResult)
    (order : List Nat) (horder : order.Perm (List.range urls.length))
    (hf : anyFatal respond urls.length = true) (st : Batch) :
    ∃ e, awaitAll urls respond order st = .error e := by
  obtain ⟨i, hi, hfi⟩ := (anyFatal_eq_true respond _).mp hf
  exact awaitAll_fatal urls respond order st
    ⟨i, horder.mem_iff.mpr (List.mem_range.mpr hi), hfi⟩

/-! ## The formatter and the whole run -/

theorem jsonOutputLoop_eq (o s : List String) (hlen : o.length = s.length) (n i : Nat)
    (acc : List URLPair) (hi : i + n = o.length) :
    jsonOutputLoop o s n i acc
      = .ok (acc ++ List.zipWith URLPair.mk (o.drop i) (s.drop i)) := by
  induction n generalizing i acc with
  | zero =>
    have h1 : o.drop i = [] := List.drop_eq_nil_of_le (by omega)
    simp [jsonOutputLoop, h1]
  | succ n ih =>
    have hio : i < o.length := by omega
    have his : i < s.length := by omega
    have e1 : o.drop i = o[i] :: o.drop (i + 1) := List.drop_eq_getElem_cons hio
    have e2 : s.drop i = s[i] :: s.drop (i + 1) := List.drop_eq_getElem_cons his
    have g1 : o[i]? = some o[i] := List.getElem?_eq_getElem hio
    have g2 : s[i]? = some s[i] := List.getElem?_eq_getElem his
    simp only [jsonOutputLoop, g1, g2]
    rw [ih (i + 1) _ (by omega), e1, e2]
    simp [List.zipWith]

theorem jsonOutput_eq (o s : List String) (hlen : o.length = s.length) :
    jsonOutput o s = .ok (String.mk (indentedArray (List.zipWith URLPair.mk o s))) := by
  unfold jsonOutput
  rw [jsonOutputLoop_eq o s hlen o.length 0 [] (by omega), ]
  simp only [List.drop_zero, List.nil_append, MarshalIndent_eq]

theorem expectedResults_length (respond : Nat → PostResult) (n : Nat) :
    (expectedResults respond n).length = n := by
  simp [expectedResults]

theorem expectedResults_getElem? (respond : Nat → PostResult) (n i : Nat) (h : i < n) :
    (expectedResults respond n)[i]? = some (unitEntry (respond i)) := by
  simp [expectedResults, List.getElem?_range h]

theorem output_err_none (ctx : Context) (fs : FileSystem) (o s : List String)
    (hlen : o.length = s.length) : (output ctx fs o s).err = none := by
  unfold output
  cases hj : ctx.json
  · by_cases hp : ctx.output = "" <;> simp [hp]
  · by_cases hp : ctx.output = "" <;> simp [hp, jsonOutput_eq o s hlen]

theorem bulkConvert_completes (ctx : Context) (respond : Nat → PostResult)
    (order inFlight : List Nat) (fs : FileSystem)
    (horder : order.Perm (List.range ctx.args.length))
    (hok : anyFatal respond ctx.args.length = false) :
    (bulkConvert ctx respond order inFlight fs).formatterInput
        = some (ctx.args, expectedResults respond ctx.args.length) ∧
      (bulkConvert ctx respond order inFlight fs).exitCode = 0 := by
  obtain ⟨st1, ha, hs⟩ := awaitAll_perm_ok ctx.args respond order horder hok
  have herr := output_err_none ctx fs ctx.args st1.shortenedURLs
    (by rw [hs, expectedResults_length])
  rw [hs] at herr
  unfold bulkConvert
  simp only [ha, herr, hs, and_self]

theorem bulkConvert_aborts (ctx : Context) (respond : Nat → PostResult)
    (order inFlight : List Nat) (fs : FileSystem)
    (horder : order.Perm (List.range ctx.args.length))
    (hf : anyFatal respond ctx.args.length = true) :
    (bulkConvert ctx respond order inFlight fs).formatterInput = none ∧
      (bulkConvert ctx respond order inFlight fs).exitCode = 1 ∧
      (bulkConvert ctx respond order inFlight fs).stdout = "" ∧
      (bulkConvert ctx respond order inFlight fs).fs = fs := by
  obtain ⟨e, he⟩ := awaitAll_perm_fatal ctx.args respond order horder hf
    { shortenedURLs := List.replicate ctx.args.length "", stderr := [] }
  unfold bulkConvert
  simp only [he, and_self]

theorem bulkConvert_formatterInput (ctx : Context) (respond : Nat → PostResult)
    (order inFlight : List Nat) (fs : FileSystem)
    (horder : order.Perm (List.range ctx.args.length)) :
    (bulkConvert ctx respond order inFlight fs).formatterInput
      = if anyFatal respond ctx.args.length then none
        else some (ctx.args, expectedResults respond ctx.args.length) := by
  cases hf : anyFatal respond ctx.args.length
  · simpa using (bulkConvert_completes ctx respond order inFlight fs horder hf).1
  · simpa using (bulkConvert_aborts ctx respond order inFlight fs horder hf).1

/-! ## The claims -/

theorem formatterInput_none_iff (ctx : Context) (respond : Nat → PostResult)
    (order inFlight : List Nat) (fs : FileSystem)
    (horder : order.Perm (List.range ctx.args.length)) (i : Nat)
    (hnf : (respond i).isFatal = false) :
    (bulkConvert ctx respond order inFlight fs).formatterInput = none ↔
      ∃ j, j < ctx.args.length ∧ j ≠ i ∧ (respond j).isFatal = true := by
  rw [bulkConvert_formatterInput ctx respond order inFlight fs horder]
  constructor
  · intro h
    cases hf : anyFatal respond ctx.args.length
    · simp [hf] at h
    · obtain ⟨j, hj, hjf⟩ := (anyFatal_eq_true respond _).mp hf
      refine ⟨j, hj, ?_, hjf⟩
      rintro rfl
      rw [hnf] at hjf
      exact Bool.noConfusion hjf
  · rintro ⟨j, hj, -, hjf⟩
    have hf := (anyFatal_eq_true respond _).mpr ⟨j, hj, hjf⟩
    simp [hf]

theorem anyFatal_false_of_others (respond : Nat → PostResult) (n i : Nat)
    (hnf : (respond i).isFatal = false)
    (hothers : ∀ j, j < n → j ≠ i → (respond j).isFatal = false) :
    anyFatal respond n = false := by
  rw [anyFatal_eq_false]
  intro j hj
  by_cases hji : j = i
  · rw [hji]; exact hnf
  · exact hothers j hj hji

theorem formatterInput_entry (ctx : Context) (respond : Nat → PostResult)
    (order inFlight : List Nat) (fs : FileSystem)
    (horder : order.Perm (List.range ctx.args.length)) (orig res : List String)
    (h : (bulkConvert ctx respond order inFlight fs).formatterInput = some (orig, res)) :
    orig = ctx.args ∧ res.length = ctx.args.length ∧
      ∀ i, i < ctx.args.length → res[i]? = some (unitEntry (respond i)) := by
  rw [bulkConvert_formatterInput ctx respond order inFlight fs horder] at h
  cases hf : anyFatal respond ctx.args.length
  · simp only [hf, Bool.false_eq_true, if_false, Option.some.injEq, Prod.mk.injEq] at h
    obtain ⟨h1, h2⟩ := h
    subst h1 h2
    exact ⟨rfl, expectedResults_length _ _, fun i hi => expectedResults_getElem? _ _ i hi⟩
  · simp [hf] at h

/-- Claim C1. For every list of URLs and every order in which the per-URL
units complete (a permutation of the unit indices), the result sequence that
`bulkConvert` hands to the formatter is the same as for any other completion
order; whenever a sequence is handed over it is paired with the input URLs,
has one entry per URL, and its entry `i` is the outcome of the unit with
response `respond i`; and one is handed over whenever no unit is fatal. -/
theorem bulkConvert_results_follow_input_order (ctx : Context)
    (respond : Nat → PostResult) (order order2 inFlight inFlight2 : List Nat)
    (fs : FileSystem)
    (horder : order.Perm (List.range ctx.args.length))
    (horder2 : order2.Perm (List.range ctx.args.length)) :
    (bulkConvert ctx respond order inFlight fs).formatterInput
        = (bulkConvert ctx respond order2 inFlight2 fs).formatterInput ∧
      (∀ orig res,
        (bulkConvert ctx respond order inFlight fs).formatterInput = some (orig, res) →
        orig = ctx.args ∧ res.length = ctx.args.length ∧
          ∀ i, i < ctx.args.length → res[i]? = some (unitEntry (respond i))) ∧
      (anyFatal respond ctx.args.length = false →
        ∃ res,
          (bulkConvert ctx respond order inFlight fs).formatterInput
            = some (ctx.args, res)) := by
  refine ⟨?_, ?_, ?_⟩
  · rw [bulkConvert_formatterInput ctx respond order inFlight fs horder,
      bulkConvert_formatterInput ctx respond order2 inFlight2 fs horder2]
  · intro orig res h
    exact formatterInput_entry ctx respond order inFlight fs horder orig res h
  · intro hok
    exact ⟨_, (bulkConvert_completes ctx respond order inFlight fs horder hok).1⟩

/-- Witness of C1: three URLs whose units complete in the order 2, 0, 1. -/
theorem bulkConvert_results_follow_input_order_witness :
    [2, 0, 1].Perm (List.range sampleCtx.args.length) ∧
      [0, 1, 2].Perm (List.range sampleCtx.args.length) ∧
      (bulkConvert sampleCtx sampleRespond [2, 0, 1] [] sampleFs).formatterInput
        = (bulkConvert sampleCtx sampleRespond [0, 1, 2] [] sampleFs).formatterInput ∧
      (bulkConvert sampleCtx sampleRespond [2, 0, 1] [] sampleFs).formatterInput
        = some (sampleCtx.args, ["https://dlgfy.xyz/x0", "", "https://dlgfy.xyz/x2"]) :=
  ⟨by decide, by decide,
    (bulkConvert_results_follow_input_order sampleCtx sampleRespond [2, 0, 1] [0, 1, 2]
      [] [] sampleFs (by decide) (by decide)).1, by decide⟩

/-- Counterexample to C2: one URL whose response has the status 500. The batch
is not aborted: the result sequence (with an empty entry) is handed to the
formatter, a line is written to standard output and the process exits with
code 0. -/
theorem bulkConvert_status_500_completes :
    (bulkConvert { args := ["http://a.com"], json := false, output := "" }
        (fun _ => .response 500 none) [0] [] sampleFs).formatterInput
        = some (["http://a.com"], [""]) ∧
      (bulkConvert { args := ["http://a.com"], json := false, output := "" }
        (fun _ => .response 500 none) [0] [] sampleFs).stdout = "\n" ∧
      (bulkConvert { args := ["http://a.com"], json := false, output := "" }
        (fun _ => .response 500 none) [0] [] sampleFs).exitCode = 0 := by
  decide

/-- Claim C2, amended. A unit whose response status is neither 200 nor 429 is
not fatal: its body changes nothing (no write, no notice), so its index keeps
the initial empty string. The batch is aborted exactly when some other unit is
fatal (transport error, or a status 200 whose body does not decode); when no
other unit is fatal, the full result sequence goes to the formatter with the
empty string at that index and the process exits with code 0. -/
theorem other_status_is_skipped (ctx : Context) (respond : Nat → PostResult)
    (order inFlight : List Nat) (fs : FileSystem) (i statusCode : Nat) (decoded : Option String)
    (horder : order.Perm (List.range ctx.args.length)) (hi : i < ctx.args.length)
    (hresp : respond i = .response statusCode decoded)
    (h200 : statusCode ≠ 200) (h429 : statusCode ≠ 429) :
    (∀ url st, goroutine url i (respond i) st = .ok st) ∧
      ((bulkConvert ctx respond order inFlight fs).formatterInput = none ↔
        ∃ j, j < ctx.args.length ∧ j ≠ i ∧ (respond j).isFatal = true) ∧
      (∀ res,
        (bulkConvert ctx respond order inFlight fs).formatterInput = some (ctx.args, res) →
        res[i]? = some "") ∧
      ((∀ j, j < ctx.args.length → j ≠ i → (respond j).isFatal = false) →
        (bulkConvert ctx respond order inFlight fs).exitCode = 0 ∧
          ∃ res,
            (bulkConvert ctx respond order inFlight fs).formatterInput
              = some (ctx.args, res) ∧
            res[i]? = some "") := by
  have hnf : (respond i).isFatal = false := by
    rw [hresp]; simp [PostResult.isFatal, h200]
  have hentry : unitEntry (respond i) = "" := by
    rw [hresp]; cases decoded <;> simp [unitEntry, h200]
  refine ⟨?_, formatterInput_none_iff ctx respond order inFlight fs horder i hnf, ?_, ?_⟩
  · intro url st
    rw [hresp]
    simp [goroutine, h200, h429]
  · intro res h
    rw [(formatterInput_entry ctx respond order inFlight fs horder _ _ h).2.2 i hi, hentry]
  · intro hothers
    have hok := anyFatal_false_of_others respond _ i hnf hothers
    obtain ⟨h1, h2⟩ := bulkConvert_completes ctx respond order inFlight fs horder hok
    refine ⟨h2, _, h1, ?_⟩
    rw [expectedResults_getElem? _ _ i hi, hentry]

/-- Witness of C2 amended: the unit 1 of three gets the status 500. -/
theorem other_status_is_skipped_witness :
    [2, 0, 1].Perm (List.range sampleCtx.args.length) ∧ 1 < sampleCtx.args.length ∧
      sampleRespond500 1 = .response 500 none ∧
      (bulkConvert sampleCtx sampleRespond500 [2, 0, 1] [] sampleFs).exitCode = 0 ∧
      (bulkConvert sampleCtx sampleRespond500 [2, 0, 1] [] sampleFs).formatterInput
        = some (sampleCtx.args, ["https://dlgfy.xyz/x0", "", "https://dlgfy.xyz/x2"]) :=
  ⟨by decide, by decide, by decide,
    ((other_status_is_skipped sampleCtx sampleRespond500 [2, 0, 1] [] sampleFs 1 500 none
      (by decide) (by decide) (by decide) (by decide) (by decide)).2.2.2
        (by decide)).1, by decide⟩

/-- Claim C3, evaluated at a failing input: one URL, plain output to a path at
which the write fails. `dumpStringToFile` returns an error, yet `output`
returns no error, and `bulkConvert` reports `Done!` and `Saved output to:` and
exits with code 0 although no file was written. -/
theorem output_drops_write_failure :
    (dumpStringToFile { files := [], unwritable := ["/nodir/out.txt"] }
        "https://dlgfy.xyz/x1" "/nodir/out.txt").1 ≠ none ∧
      (output { args := ["http://a.com"], json := false, output := "/nodir/out.txt" }
        { files := [], unwritable := ["/nodir/out.txt"] }
        ["http://a.com"] ["https://dlgfy.xyz/x1"]).err = none ∧
      (bulkConvert { args := ["http://a.com"], json := false, output := "/nodir/out.txt" }
        (fun _ => .response 200 (some "x1")) [0] []
        { files := [], unwritable := ["/nodir/out.txt"] }).exitCode = 0 ∧
      (bulkConvert { args := ["http://a.com"], json := false, output := "/nodir/out.txt" }
        (fun _ => .response 200 (some "x1")) [0] []
        { files := [], unwritable := ["/nodir/out.txt"] }).stderr
        = ["✓  http://a.com", "Done!", "Saved output to: /nodir/out.txt"] ∧
      (bulkConvert { args := ["http://a.com"], json := false, output := "/nodir/out.txt" }
        (fun _ => .response 200 (some "x1")) [0] []
        { files := [], unwritable := ["/nodir/out.txt"] }).fs.files = [] := by
  decide

/-- Claim C4. For every slug returned in a 200 response, `makeOutput` is the
redirect base, a slash and the slug, and is never empty; the unit stores
exactly that string at its index, and in a batch without a fatal unit the
formatter receives it at that index. -/
theorem shortened_url_is_base_slash_slug (ctx : Context) (respond : Nat → PostResult)
    (order inFlight : List Nat) (fs : FileSystem) (i : Nat) (slug : String)
    (horder : order.Perm (List.range ctx.args.length)) (hi : i < ctx.args.length)
    (hresp : respond i = .response 200 (some slug))
    (hok : anyFatal respond ctx.args.length = false) :
    makeOutput slug = "https://dlgfy.xyz/" ++ slug ∧ makeOutput slug ≠ "" ∧
      (∀ url st, goroutine url i (respond i) st
        = .ok { shortenedURLs := st.shortenedURLs.set i ("https://dlgfy.xyz/" ++ slug),
                stderr := st.stderr ++ ["✓  " ++ url] }) ∧
      ∃ res,
        (bulkConvert ctx respond order inFlight fs).formatterInput = some (ctx.args, res) ∧
        res[i]? = some ("https://dlgfy.xyz/" ++ slug) := by
  refine ⟨makeOutput_eq slug, makeOutput_ne_empty slug, ?_, ?_⟩
  · intro url st
    rw [hresp, ← makeOutput_eq]
    rfl
  · refine ⟨_, (bulkConvert_completes ctx respond order inFlight fs horder hok).1, ?_⟩
    rw [expectedResults_getElem? _ _ i hi, hresp, ← makeOutput_eq]
    rfl

/-- Witness of C4: the unit 2 of three gets the slug `x2`. -/
theorem shortened_url_is_base_slash_slug_witness :
    [2, 0, 1].Perm (List.range sampleCtx.args.length) ∧ 2 < sampleCtx.args.length ∧
      sampleRespond 2 = .response 200 (some "x2") ∧
      anyFatal sampleRespond sampleCtx.args.length = false ∧
      makeOutput "x2" = "https://dlgfy.xyz/" ++ "x2" ∧ makeOutput "x2" ≠ "" :=
  ⟨by decide, by decide, by decide, by decide,
    (shortened_url_is_base_slash_slug sampleCtx sampleRespond [2, 0, 1] [] sampleFs 2 "x2"
      (by decide) (by decide) (by decide) (by decide)).1,
    (shortened_url_is_base_slash_slug sampleCtx sampleRespond [2, 0, 1] [] sampleFs 2 "x2"
      (by decide) (by decide) (by decide) (by decide)).2.1⟩

/-- Claim C5. In every batch in which the unit at index `i` receives HTTP 429,
that unit writes the empty string at index `i` and changes no other index; it
never aborts the batch (the batch is aborted exactly when another unit is
fatal); and when the batch completes, the result at `i` is the empty string
and every index `j` that received a 200 with slug `slug` holds
`makeOutput slug`. -/
theorem rate_limited_unit_only_clears_its_index (ctx : Context)
    (respond : Nat → PostResult) (order inFlight : List Nat) (fs : FileSystem) (i : Nat)
    (decoded : Option String)
    (horder : order.Perm (List.range ctx.args.length)) (hi : i < ctx.args.length)
    (hresp : respond i = .response 429 decoded) :
    (∀ url st, goroutine url i (respond i) st
        = .ok { shortenedURLs := st.shortenedURLs.set i "",
                stderr := st.stderr ++ ["Rate limit exceeded. Skipping url: " ++ url] }) ∧
      (∀ url st st1, goroutine url i (respond i) st = .ok st1 →
        ∀ j, j ≠ i → st1.shortenedURLs[j]? = st.shortenedURLs[j]?) ∧
      ((bulkConvert ctx respond order inFlight fs).formatterInput = none ↔
        ∃ j, j < ctx.args.length ∧ j ≠ i ∧ (respond j).isFatal = true) ∧
      (∀ res,
        (bulkConvert ctx respond order inFlight fs).formatterInput = some (ctx.args, res) →
        res[i]? = some "" ∧
          ∀ j slug, j < ctx.args.length → respond j = .response 200 (some slug) →
            res[j]? = some (makeOutput slug)) ∧
      ((∀ j, j < ctx.args.length → j ≠ i → (respond j).isFatal = false) →
        (bulkConvert ctx respond order inFlight fs).exitCode = 0 ∧
          ∃ res,
          (bulkConvert ctx respond order inFlight fs).formatterInput
            = some (ctx.args, res)) := by
  have hnf : (respond i).isFatal = false := by
    rw [hresp]; simp [PostResult.isFatal]
  have hentry : unitEntry (respond i) = "" := by
    rw [hresp]; cases decoded <;> simp [unitEntry]
  have hstep : ∀ url st, goroutine url i (respond i) st
      = .ok { shortenedURLs := st.shortenedURLs.set i "",
              stderr := st.stderr ++ ["Rate limit exceeded. Skipping url: " ++ url] } := by
    intro url st
    rw [hresp]
    simp [goroutine]
  refine ⟨hstep, ?_, formatterInput_none_iff ctx respond order inFlight fs horder i hnf, ?_, ?_⟩
  · intro url st st1 h j hji
    rw [hstep] at h
    cases h
    exact List.getElem?_set_ne (fun e => hji e.symm)
  · intro res h
    have hent := (formatterInput_entry ctx respond order inFlight fs horder _ _ h).2.2
    refine ⟨by rw [hent i hi, hentry], fun j slug hj hrj => ?_⟩
    rw [hent j hj, hrj]
    simp [unitEntry]
  · intro hothers
    have hok := anyFatal_false_of_others respond _ i hnf hothers
    obtain ⟨h1, h2⟩ := bulkConvert_completes ctx respond order inFlight fs horder hok
    exact ⟨h2, _, h1⟩

/-- Witness of C5: the unit 1 of three is rate limited. -/
theorem rate_limited_unit_only_clears_its_index_witness :
    [2, 0, 1].Perm (List.range sampleCtx.args.length) ∧ 1 < sampleCtx.args.length ∧
      sampleRespond 1 = .response 429 none ∧
      (bulkConvert sampleCtx sampleRespond [2, 0, 1] [] sampleFs).exitCode = 0 ∧
      (bulkConvert sampleCtx sampleRespond [2, 0, 1] [] sampleFs).stdout
        = "https://dlgfy.xyz/x0\n\nhttps://dlgfy.xyz/x2\n" :=
  ⟨by decide, by decide, by decide,
    ((rate_limited_unit_only_clears_its_index sampleCtx sampleRespond [2, 0, 1] [] sampleFs 1
      none (by decide) (by decide) (by decide)).2.2.2.2 (by decide)).1, by decide⟩

/-- Claim C6. `standardOutput` joins the results with a single newline in
input order, without a leading or trailing separator: nothing for no result,
the result itself for one, and otherwise the first result, a newline and the
join of the others; it is the `intercalate` of the results. Empty placeholders
give empty lines, and the results of the slugs `x1`, `x2` give the two URLs
separated by one newline. -/
theorem standardOutput_joins_with_newline :
    standardOutput [] = "" ∧
      (∀ a, standardOutput [a] = a) ∧
      (∀ a b rest, standardOutput (a :: b :: rest) = a ++ "\n" ++ standardOutput (b :: rest)) ∧
      (∀ rs, standardOutput rs = "\n".intercalate rs) ∧
      standardOutput [makeOutput "x1", makeOutput "x2"]
        = "https://dlgfy.xyz/x1\nhttps://dlgfy.xyz/x2" ∧
      standardOutput [makeOutput "x1", "", makeOutput "x3"]
        = "https://dlgfy.xyz/x1\n\nhttps://dlgfy.xyz/x3" := by
  refine ⟨rfl, fun a => rfl, fun a b rest => ?_, fun rs => ?_, by decide, by decide⟩
  · exact stringsJoin_cons_cons "\n" a b rest
  · exact stringsJoin_eq_intercalate "\n" rs

theorem map_pairJSON_zipWith (o s : List String) :
    (List.zipWith URLPair.mk o s).map pairJSON
      = List.zipWith
          (fun a b => JSON.obj [("originalUrl", JSON.str a), ("newUrl", JSON.str b)]) o s := by
  induction o generalizing s with
  | nil => simp
  | cons a o ih =>
    cases s with
    | nil => simp
    | cons b s => simp [List.zipWith, ih, pairJSON]

/-- Claim C7. JSON round trip: for equal-length lists of (well-formed) strings
`jsonOutput` succeeds, and parsing its output as JSON yields an array with one
object per input URL whose `i`-th object has the members `originalUrl`, equal
to `originalURLs[i]`, and `newUrl`, equal to `shortenedURLs[i]`, in that
order. -/
theorem jsonOutput_roundtrip (originalURLs shortenedURLs : List String)
    (hlen : originalURLs.length = shortenedURLs.length) :
    ∃ out elems, jsonOutput originalURLs shortenedURLs = .ok out ∧
      parseJSON out = some (.arr elems) ∧
      elems = List.zipWith
        (fun a b => JSON.obj [("originalUrl", JSON.str a), ("newUrl", JSON.str b)])
        originalURLs shortenedURLs ∧
      elems.length = originalURLs.length ∧
      ∀ (i : Nat) (a b : String), originalURLs[i]? = some a → shortenedURLs[i]? = some b →
        elems[i]? = some (JSON.obj [("originalUrl", JSON.str a), ("newUrl", JSON.str b)]) := by
  refine ⟨_, _, jsonOutput_eq originalURLs shortenedURLs hlen, ?_, rfl, ?_, ?_⟩
  · rw [parseJSON_indentedArray, map_pairJSON_zipWith]
  · simp [hlen]
  · intro i a b ha hb
    simp [List.getElem?_zipWith, ha, hb]

/-- Witness of C7: two URLs, one with characters the encoder escapes. -/
theorem jsonOutput_roundtrip_witness :
    ["http://a.com/?q=\"x\"&r=<1>", "http://b.com"].length
        = ["https://dlgfy.xyz/x1", ""].length ∧
      ∃ out elems,
        jsonOutput ["http://a.com/?q=\"x\"&r=<1>", "http://b.com"]
          ["https://dlgfy.xyz/x1", ""] = .ok out ∧
        parseJSON out = some (.arr elems) ∧
        elems = [JSON.obj [("originalUrl", JSON.str "http://a.com/?q=\"x\"&r=<1>"),
            ("newUrl", JSON.str "https://dlgfy.xyz/x1")],
          JSON.obj [("originalUrl", JSON.str "http://b.com"), ("newUrl", JSON.str "")]] :=
  ⟨rfl,
    (jsonOutput_roundtrip ["http://a.com/?q=\"x\"&r=<1>", "http://b.com"]
      ["https://dlgfy.xyz/x1", ""] rfl).imp
      (fun _ h => h.imp (fun _ h2 => ⟨h2.1, h2.2.1, h2.2.2.1⟩))⟩

theorem appendStringChar_verbatim (c : Char) (h : goEscapes c = false) :
    appendStringChar c = [c] := by
  simp only [goEscapes, mustEscape, Bool.or_eq_false_iff, decide_eq_false_iff_not,
    beq_eq_false_iff_ne, ne_eq] at h
  obtain ⟨⟨⟨⟨⟨⟨⟨h1, h2⟩, h3⟩, h4⟩, h5⟩, h6⟩, h7⟩, h8⟩ := h
  unfold appendStringChar
  by_cases hc : c.toNat < 128
  · have hs : htmlSafeSet c = true := by
      simp [htmlSafeSet, hc, h2, h3, h4, h5, h6]
      omega
    simp [hc, hs]
  · simp [hc, h7, h8]

theorem flatMap_verbatim (s : List Char) (h : ∀ c ∈ s, appendStringChar c = [c]) :
    s.flatMap appendStringChar = s := by
  induction s with
  | nil => rfl
  | cons c cs ih =>
    rw [List.flatMap_cons, h c (by simp), ih (fun x hx => h x (by simp [hx]))]
    rfl

theorem quoted_verbatim (s : String) (h : ∀ c ∈ s.data, goEscapes c = false) :
    quoted s = '"' :: s.data ++ ['"'] := by
  unfold quoted
  rw [flatMap_verbatim s.data (fun c hc => appendStringChar_verbatim c (h c hc))]

theorem layoutObject_data (p : URLPair)
    (ho : ∀ c ∈ p.OriginalUrl.data, goEscapes c = false)
    (hs : ∀ c ∈ p.NewUrl.data, goEscapes c = false) :
    (layoutObject p.OriginalUrl p.NewUrl).data = ' ' :: ' ' :: indentedObject p := by
  have e1 : "  \x7b\n    \"originalUrl\": \"".data
      = ' ' :: ' ' :: ("\x7b\n    \"originalUrl\": ".data ++ ['"']) := by decide
  have e2 : "\",\n    \"newUrl\": \"".data
      = '"' :: (",\n    \"newUrl\": ".data ++ ['"']) := by decide
  have e3 : "\"\n  \x7d".data = '"' :: "\n  \x7d".data := by decide
  unfold layoutObject indentedObject
  rw [quoted_verbatim _ ho, quoted_verbatim _ hs]
  simp only [String.data_append, e1, e2, e3]
  simp

theorem foldl_join_data (sep : String) (rest : List String) (a : String) :
    (rest.foldl (fun b s => (b ++ sep) ++ s) a).data
      = a.data ++ rest.flatMap (fun x => sep.data ++ x.data) := by
  induction rest generalizing a with
  | nil => simp
  | cons r rs ih => simp [ih, String.data_append]

theorem layout_data (ps : List URLPair)
    (h : ∀ p ∈ ps, (∀ c ∈ p.OriginalUrl.data, goEscapes c = false) ∧
      (∀ c ∈ p.NewUrl.data, goEscapes c = false)) :
    (match ps.map (fun (p : URLPair) => layoutObject p.OriginalUrl p.NewUrl) with
      | [] => "[]"
      | objs => "[\n" ++ ",\n".intercalate objs ++ "\n]").data = indentedArray ps := by
  cases ps with
  | nil => decide
  | cons p ps =>
    have hflat : ∀ qs : List URLPair, (∀ q ∈ qs, (∀ c ∈ q.OriginalUrl.data, goEscapes c = false) ∧
          (∀ c ∈ q.NewUrl.data, goEscapes c = false)) →
        (qs.map (fun (q : URLPair) => layoutObject q.OriginalUrl q.NewUrl)).flatMap
            (fun x => ",\n".data ++ x.data)
          = qs.flatMap (fun q => ',' :: '\n' :: ' ' :: ' ' :: indentedObject q) := by
      intro qs hqs
      induction qs with
      | nil => rfl
      | cons q qs ih =>
        have hq := hqs q (by simp)
        have e : ",\n".data = [',', '\n'] := rfl
        simp only [List.map_cons, List.flatMap_cons, layoutObject_data q hq.1 hq.2, e]
        rw [ih (fun r hr => hqs r (by simp [hr]))]
        simp
    have hp := h p (by simp)
    have e0 : "[\n".data = ['[', '\n'] := rfl
    have e9 : "\n]".data = ['\n', ']'] := rfl
    simp only [List.map_cons, String.data_append, ← stringsJoin_eq_intercalate,
      stringsJoin_cons_eq_foldl, foldl_join_data, layoutObject_data p hp.1 hp.2,
      hflat ps (fun r hr => h r (by simp [hr])), indentedArray, e0, e9]
    simp

theorem mem_zipWith_mk (o s : List String) (p : URLPair)
    (hp : p ∈ List.zipWith URLPair.mk o s) : p.OriginalUrl ∈ o ∧ p.NewUrl ∈ s := by
  induction o generalizing s with
  | nil => simp at hp
  | cons a o ih =>
    cases s with
    | nil => simp at hp
    | cons b s =>
      simp only [List.zipWith, List.mem_cons] at hp
      rcases hp with rfl | hp
      · simp
      · have := ih s hp
        simp [this.1, this.2]

theorem zipWith_layoutObject (o s : List String) :
    List.zipWith layoutObject o s
      = (List.zipWith URLPair.mk o s).map
          (fun (p : URLPair) => layoutObject p.OriginalUrl p.NewUrl) := by
  induction o generalizing s with
  | nil => simp
  | cons a o ih =>
    cases s with
    | nil => simp
    | cons b s => simp [List.zipWith, ih]

/-- Counterexample to C8: the string `a&b` needs no escaping in JSON (it has
no control character, double quote or backslash), yet `jsonOutput` writes its
ampersand as the escape `\u0026`, so the text between the quotes is not the
string itself. -/
theorem jsonOutput_escapes_ampersand :
    (∀ c ∈ "a&b".data, mustEscape c = false) ∧
      ["a&b"].length = [""].length ∧
      jsonOutput ["a&b"] [""]
        = .ok "[\n  \x7b\n    \"originalUrl\": \"a\\u0026b\",\n    \"newUrl\": \"\"\n  \x7d\n]" ∧
      layout ["a&b"] [""]
        = "[\n  \x7b\n    \"originalUrl\": \"a&b\",\n    \"newUrl\": \"\"\n  \x7d\n]" ∧
      jsonOutput ["a&b"] [""] ≠ .ok (layout ["a&b"] [""]) := by
  have h1 : jsonOutput ["a&b"] [""]
      = .ok "[\n  \x7b\n    \"originalUrl\": \"a\\u0026b\",\n    \"newUrl\": \"\"\n  \x7d\n]" := by
    rfl
  have h2 : layout ["a&b"] [""]
      = "[\n  \x7b\n    \"originalUrl\": \"a&b\",\n    \"newUrl\": \"\"\n  \x7d\n]" := by
    rfl
  refine ⟨by decide, rfl, h1, h2, ?_⟩
  rw [h1, h2]
  intro h
  exact absurd (Except.ok.inj h) (by decide)

/-- Claim C8, amended. For every pair of equal-length lists of strings none of
whose characters Go's encoder escapes (no control character, double quote,
backslash, `<`, `>`, `&`, U+2028 or U+2029), `jsonOutput` returns no error and
its output is the array pretty-printed with two-space indentation: `[` and `]`
on lines of their own, each object as its four lines with the keys
`originalUrl` then `newUrl`, objects separated by a comma and a newline, no
trailing newline, and `[]` for the empty list. -/
theorem jsonOutput_layout (originalURLs shortenedURLs : List String)
    (hlen : originalURLs.length = shortenedURLs.length)
    (ho : ∀ u ∈ originalURLs, ∀ c ∈ u.data, goEscapes c = false)
    (hs : ∀ u ∈ shortenedURLs, ∀ c ∈ u.data, goEscapes c = false) :
    jsonOutput originalURLs shortenedURLs = .ok (layout originalURLs shortenedURLs) ∧
      layout [] [] = "[]" ∧
      layout ["http://a.com", "http://b.com"] ["https://dlgfy.xyz/x1", "https://dlgfy.xyz/x2"]
        = "[\n  \x7b\n    \"originalUrl\": \"http://a.com\",\n    \"newUrl\": \"https://dlgfy.xyz/x1\"\n  \x7d,\n  \x7b\n    \"originalUrl\": \"http://b.com\",\n    \"newUrl\": \"https://dlgfy.xyz/x2\"\n  \x7d\n]" := by
  refine ⟨?_, rfl, rfl⟩
  rw [jsonOutput_eq originalURLs shortenedURLs hlen]
  congr 1
  apply String.ext
  unfold layout
  rw [zipWith_layoutObject, layout_data]
  intro p hp
  have := mem_zipWith_mk _ _ p hp
  exact ⟨ho _ this.1, hs _ this.2⟩

/-- Witness of C8 amended: the two URLs of the specification's scenario. -/
theorem jsonOutput_layout_witness :
    ["http://a.com", "http://b.com"].length
        = ["https://dlgfy.xyz/x1", "https://dlgfy.xyz/x2"].length ∧
      (∀ u ∈ ["http://a.com", "http://b.com"], ∀ c ∈ u.data, goEscapes c = false) ∧
      (∀ u ∈ ["https://dlgfy.xyz/x1", "https://dlgfy.xyz/x2"], ∀ c ∈ u.data,
        goEscapes c = false) ∧
      jsonOutput ["http://a.com", "http://b.com"]
          ["https://dlgfy.xyz/x1", "https://dlgfy.xyz/x2"]
        = .ok (layout ["http://a.com", "http://b.com"]
          ["https://dlgfy.xyz/x1", "https://dlgfy.xyz/x2"]) :=
  ⟨by decide, by decide, by decide,
    (jsonOutput_layout ["http://a.com", "http://b.com"]
      ["https://dlgfy.xyz/x1", "https://dlgfy.xyz/x2"] (by decide) (by decide)
      (by decide)).1⟩

theorem unitEntry_eq_empty_iff (r : PostResult) :
    unitEntry r = "" ↔ ¬ ∃ slug, r = .response 200 (some slug) := by
  cases r with
  | transportError => simp [unitEntry]
  | response code decoded =>
    cases decoded with
    | none => simp [unitEntry]
    | some slug =>
      by_cases h : code = 200
      · simp [unitEntry, h, makeOutput_ne_empty]
      · simp [unitEntry, h]

/-- Claim C10. For every non-empty list of results none of which contains a
newline, splitting `standardOutput`'s result at the newlines gives back exactly
that list: as many lines as results, line `i` equal to result `i`, and so empty
exactly when result `i` is empty. A successful result is never empty, it starts
with `https://dlgfy.xyz/`; hence for the results of a batch, line `i` is empty
exactly when unit `i` did not get a decoded 200 response. -/
theorem lines_of_standardOutput (rs : List String) (hne : rs ≠ [])
    (hnl : ∀ r ∈ rs, '\n' ∉ r.data) :
    lines (standardOutput rs) = rs ∧
      (lines (standardOutput rs)).length = rs.length ∧
      (∀ i : Nat, (lines (standardOutput rs))[i]? = rs[i]?) ∧
      (∀ i : Nat, (lines (standardOutput rs))[i]? = some "" ↔ rs[i]? = some "") ∧
      (∀ slug, makeOutput slug ≠ "" ∧ makeOutput slug = "https://dlgfy.xyz/" ++ slug) ∧
      (∀ respond n, rs = expectedResults respond n → ∀ i, i < n →
        ((lines (standardOutput rs))[i]? = some "" ↔
          ¬ ∃ slug, respond i = .response 200 (some slug))) := by
  have h := lines_standardOutput rs hne hnl
  refine ⟨h, by rw [h], fun i => by rw [h], fun i => by rw [h],
    fun slug => ⟨makeOutput_ne_empty slug, makeOutput_eq slug⟩, ?_⟩
  intro respond n hrs i hi
  rw [h, hrs, expectedResults_getElem? _ _ i hi, Option.some.injEq, unitEntry_eq_empty_iff]

/-- Witness of C10: three results, the second one an empty placeholder. -/
theorem lines_of_standardOutput_witness :
    ["https://dlgfy.xyz/x0", "", "https://dlgfy.xyz/x2"] ≠ [] ∧
      (∀ r ∈ ["https://dlgfy.xyz/x0", "", "https://dlgfy.xyz/x2"], '\n' ∉ r.data) ∧
      lines (standardOutput ["https://dlgfy.xyz/x0", "", "https://dlgfy.xyz/x2"])
        = ["https://dlgfy.xyz/x0", "", "https://dlgfy.xyz/x2"] :=
  ⟨by decide, by decide,
    (lines_of_standardOutput ["https://dlgfy.xyz/x0", "", "https://dlgfy.xyz/x2"]
      (by decide) (by decide)).1⟩

theorem returnedUnits_of_ok (urls : List String) (respond : Nat → PostResult)
    (order : List Nat) (st : Batch)
    (hok : ∀ i ∈ order, (respond i).isFatal = false) :
    returnedUnits urls respond order st = order := by
  induction order generalizing st with
  | nil => rfl
  | cons i rest ih =>
    obtain ⟨st1, hg, -⟩ := goroutine_ok (urls.getD i "") i (respond i) st (hok i (by simp))
    simp only [returnedUnits, hg]
    rw [ih st1 (fun j hj => hok j (by simp [hj]))]

theorem dispatch_sublist (posted : Nat → Bool) (i : Nat) (urls : List String) :
    (dispatch posted i urls).Sublist (urls.map request) := by
  induction urls generalizing i with
  | nil => exact List.Sublist.slnil
  | cons url rest ih =>
    simp only [dispatch, List.map_cons]
    split
    · exact (ih (i + 1)).cons₂ _
    · exact (ih (i + 1)).cons _

theorem dispatch_all (posted : Nat → Bool) (i : Nat) (urls : List String)
    (h : ∀ j, j < urls.length → posted (i + j) = true) :
    dispatch posted i urls = urls.map request := by
  induction urls generalizing i with
  | nil => rfl
  | cons url rest ih =>
    have h0 : posted i = true := by simpa using h 0 (by simp)
    simp only [dispatch, h0, if_true, List.map_cons]
    rw [ih (i + 1) (fun j hj => by
      have := h (j + 1) (by simp; omega)
      rwa [show i + 1 + j = i + (j + 1) by omega])]

theorem mem_dispatch (posted : Nat → Bool) (i : Nat) (urls : List String) (j : Nat)
    (url : String) (hj : urls[j]? = some url) (hp : posted (i + j) = true) :
    request url ∈ dispatch posted i urls := by
  induction urls generalizing i j with
  | nil => simp at hj
  | cons u rest ih =>
    cases j with
    | zero =>
      simp only [List.getElem?_cons_zero, Option.some.injEq] at hj
      subst hj
      have h0 : posted i = true := by simpa using hp
      simp [dispatch, h0]
    | succ j =>
      simp only [List.getElem?_cons_succ] at hj
      have hp2 : posted (i + 1 + j) = true := by
        rwa [show i + 1 + j = i + (j + 1) by omega]
      have hmem := ih (i + 1) j hj hp2
      simp only [dispatch]
      split
      · exact List.mem_cons_of_mem _ hmem
      · exact hmem

theorem dispatch_only_posted (posted : Nat → Bool) (i : Nat) (urls : List String)
    (r : String × String × String) (hr : r ∈ dispatch posted i urls) :
    ∃ j url, urls[j]? = some url ∧ posted (i + j) = true ∧ r = request url := by
  induction urls generalizing i with
  | nil => simp [dispatch] at hr
  | cons u rest ih =>
    simp only [dispatch] at hr
    by_cases h0 : posted i = true
    · simp only [h0, if_true, List.mem_cons] at hr
      rcases hr with rfl | hr
      · exact ⟨0, u, by simp, by simpa using h0, rfl⟩
      · obtain ⟨j, url, h1, h2, h3⟩ := ih (i + 1) hr
        exact ⟨j + 1, url, by simpa using h1,
          by rwa [show i + (j + 1) = i + 1 + j by omega], h3⟩
    · simp only [h0, Bool.false_eq_true, if_false] at hr
      obtain ⟨j, url, h1, h2, h3⟩ := ih (i + 1) hr
      exact ⟨j + 1, url, by simpa using h1,
        by rwa [show i + (j + 1) = i + 1 + j by omega], h3⟩

theorem bulkConvert_requests (ctx : Context) (respond : Nat → PostResult)
    (order inFlight : List Nat) (fs : FileSystem) :
    (bulkConvert ctx respond order inFlight fs).requests
      = dispatch (fun i => decide (i ∈ returnedUnits ctx.args respond order
          { shortenedURLs := List.replicate ctx.args.length "", stderr := [] })
          || decide (i ∈ inFlight)) 0 ctx.args := by
  unfold bulkConvert
  dsimp only
  cases awaitAll ctx.args respond order
      { shortenedURLs := List.replicate ctx.args.length "", stderr := [] } with
  | error e => rfl
  | ok st =>
    dsimp only
    cases (output ctx fs ctx.args st.shortenedURLs).err with
    | none => rfl
    | some f => cases f <;> rfl

theorem bulkConvert_helpShown (ctx : Context) (respond : Nat → PostResult)
    (order inFlight : List Nat) (fs : FileSystem) :
    (bulkConvert ctx respond order inFlight fs).helpShown = false := by
  unfold bulkConvert
  dsimp only
  cases awaitAll ctx.args respond order
      { shortenedURLs := List.replicate ctx.args.length "", stderr := [] } with
  | error e => rfl
  | ok st =>
    dsimp only
    cases (output ctx fs ctx.args st.shortenedURLs).err with
    | none => rfl
    | some f => cases f <;> rfl

theorem request_eq (url : String) :
    request url = ("https://dlgfy.xyz/createSlugURLPair", "application/json",
      String.mk ("\x7b\"url\":".data ++ quoted url ++ ['}'])) := by
  simp [request, CREATE_SLUG_URL_PAIR_ENDPOINT, appendString_eq]

/-- Counterexample to C9: two URLs, both requests would fail in transport. The
call of unit 0 returns first, while unit 1 has not reached `http.Post`: the
`log.Fatal` of unit 0 ends the process with code 1 and the request of the
second URL is never sent, one request for two URLs. -/
theorem fatal_unit_preempts_requests :
    ({ args := ["http://a.com", "http://b.com"], json := false, output := "" } :
        Context).args.length = 2 ∧
      [0, 1].Perm (List.range 2) ∧
      (defaultAction { args := ["http://a.com", "http://b.com"], json := false, output := "" }
        (fun _ => .transportError) [0, 1] [] sampleFs).exitCode = 1 ∧
      (defaultAction { args := ["http://a.com", "http://b.com"], json := false, output := "" }
        (fun _ => .transportError) [0, 1] [] sampleFs).requests
        = [("https://dlgfy.xyz/createSlugURLPair", "application/json",
            "\x7b\"url\":\"http://a.com\"\x7d")] ∧
      (defaultAction { args := ["http://a.com", "http://b.com"], json := false, output := "" }
        (fun _ => .transportError) [0, 1] [] sampleFs).requests.length ≠ 2 := by
  decide

/-- Claim C9, amended. With no URL on the command line `defaultAction` shows
the help and exits with code 0 without running `bulkConvert`: no request is
sent and nothing reaches the formatter. With at least one URL it is
`bulkConvert`: at most one request per URL is sent, each the request of an
input URL whose unit has reached `http.Post`, in particular of every unit whose
call has returned or is in flight; and when the batch completes (every call
returns and no unit is fatal) exactly one request per URL has been sent, the
request of `urls[i]` at position `i`. The request of a URL is the POST to the
endpoint `createSlugURLPair` with content type `application/json` and the JSON
object with the one key `url` holding the URL. -/
theorem defaultAction_help_or_requests (ctx : Context) (respond : Nat → PostResult)
    (order inFlight : List Nat) (fs : FileSystem) :
    (ctx.args = [] →
      defaultAction ctx respond order inFlight fs = showAppHelpAndExit fs 0 ∧
        (defaultAction ctx respond order inFlight fs).helpShown = true ∧
        (defaultAction ctx respond order inFlight fs).exitCode = 0 ∧
        (defaultAction ctx respond order inFlight fs).requests = [] ∧
        (defaultAction ctx respond order inFlight fs).formatterInput = none) ∧
      (ctx.args ≠ [] →
        defaultAction ctx respond order inFlight fs
            = bulkConvert ctx respond order inFlight fs ∧
          (defaultAction ctx respond order inFlight fs).helpShown = false ∧
          ((defaultAction ctx respond order inFlight fs).requests).Sublist
            (ctx.args.map request) ∧
          (defaultAction ctx respond order inFlight fs).requests.length ≤ ctx.args.length ∧
          (∀ r ∈ (defaultAction ctx respond order inFlight fs).requests,
            ∃ j url, ctx.args[j]? = some url ∧ r = request url ∧
              (j ∈ returnedUnits ctx.args respond order
                  { shortenedURLs := List.replicate ctx.args.length "", stderr := [] } ∨
                j ∈ inFlight)) ∧
          (∀ j url, ctx.args[j]? = some url →
            (j ∈ returnedUnits ctx.args respond order
                { shortenedURLs := List.replicate ctx.args.length "", stderr := [] } ∨
              j ∈ inFlight) →
            request url ∈ (defaultAction ctx respond order inFlight fs).requests) ∧
          (order.Perm (List.range ctx.args.length) →
            anyFatal respond ctx.args.length = false →
            (defaultAction ctx respond order inFlight fs).exitCode = 0 ∧
              (defaultAction ctx respond order inFlight fs).requests
                = ctx.args.map request ∧
              (defaultAction ctx respond order inFlight fs).requests.length
                = ctx.args.length)) ∧
      (∀ url, request url = ("https://dlgfy.xyz/createSlugURLPair", "application/json",
        String.mk ("\x7b\"url\":".data ++ quoted url ++ ['}']))) ∧
      (∀ url, (∀ c ∈ url.data, goEscapes c = false) →
        request url = ("https://dlgfy.xyz/createSlugURLPair", "application/json",
          "\x7b\"url\":\"" ++ url ++ "\"\x7d")) := by
  refine ⟨?_, ?_, request_eq, ?_⟩
  · intro h
    have e : defaultAction ctx respond order inFlight fs = showAppHelpAndExit fs 0 := by
      simp [defaultAction, h]
    rw [e]
    exact ⟨rfl, rfl, rfl, rfl, rfl⟩
  · intro h
    have hpos : ctx.args.length > 0 := List.length_pos.mpr h
    have e : defaultAction ctx respond order inFlight fs
        = bulkConvert ctx respond order inFlight fs := by
      simp [defaultAction, hpos]
    have hreq := bulkConvert_requests ctx respond order inFlight fs
    have hsub := dispatch_sublist (fun i => decide (i ∈ returnedUnits ctx.args respond order
        { shortenedURLs := List.replicate ctx.args.length "", stderr := [] })
        || decide (i ∈ inFlight)) 0 ctx.args
    rw [e, hreq]
    refine ⟨rfl, bulkConvert_helpShown ctx respond order inFlight fs, hsub, ?_, ?_, ?_, ?_⟩
    · simpa using hsub.length_le
    · intro r hr
      obtain ⟨j, url, h1, h2, h3⟩ := dispatch_only_posted _ _ _ r hr
      exact ⟨j, url, h1, h3, by simpa using h2⟩
    · intro j url hj hp
      exact mem_dispatch _ 0 ctx.args j url hj (by simpa using hp)
    · intro horder hok
      have hall : ∀ i ∈ order, (respond i).isFatal = false := fun i hi =>
        (anyFatal_eq_false respond _).mp hok i (List.mem_range.mp (horder.mem_iff.mp hi))
      have hd := dispatch_all (fun i => decide (i ∈ returnedUnits ctx.args respond order
          { shortenedURLs := List.replicate ctx.args.length "", stderr := [] })
          || decide (i ∈ inFlight)) 0 ctx.args (fun j hj => by
            rw [returnedUnits_of_ok _ _ _ _ hall]
            simp [horder.mem_iff, List.mem_range, hj])
      refine ⟨(bulkConvert_completes ctx respond order inFlight fs horder hok).2, hd, ?_⟩
      rw [hd, List.length_map]
  · intro url hurl
    rw [request_eq, quoted_verbatim url hurl]
    congr 2
    apply String.ext
    have e1 : "\x7b\"url\":\"".data = "\x7b\"url\":".data ++ ['"'] := by decide
    have e2 : "\"\x7d".data = ['"', '}'] := by decide
    simp only [String.data_append, e1, e2]
    simp

/-- Witness of C9 amended: three URLs whose calls return in the order 2, 0, 1
with no fatal unit: three requests, one per URL in input order. -/
theorem defaultAction_help_or_requests_witness :
    sampleCtx.args ≠ [] ∧ [2, 0, 1].Perm (List.range sampleCtx.args.length) ∧
      anyFatal sampleRespond sampleCtx.args.length = false ∧
      (defaultAction sampleCtx sampleRespond [2, 0, 1] [] sampleFs).requests
        = sampleCtx.args.map request ∧
      (defaultAction sampleCtx sampleRespond [2, 0, 1] [] sampleFs).requests
        = [("https://dlgfy.xyz/createSlugURLPair", "application/json",
            "\x7b\"url\":\"http://a.com\"\x7d"),
          ("https://dlgfy.xyz/createSlugURLPair", "application/json",
            "\x7b\"url\":\"http://b.com\"\x7d"),
          ("https://dlgfy.xyz/createSlugURLPair", "application/json",
            "\x7b\"url\":\"http://c.com\"\x7d")] :=
  ⟨by decide, by decide, by decide,
    (((defaultAction_help_or_requests sampleCtx sampleRespond [2, 0, 1] [] sampleFs).2.1
      (by decide)).2.2.2.2.2.2 (by decide) (by decide)).2.1, by decide⟩


end Delongify
